import Mathlib

/-!
Verification of the note-structure parser and block formatter of
NotesToNotion (`src/notion_format.py`).

The whole component is a pure function over strings and JSON-shaped data, so
it is embedded shallowly:

* Python strings are `List Char` (`toL` injects Lean string literals).
  `str.strip()`, the three regular expressions and `str.startswith` are
  modelled character by character below; each definition carries the source
  regex it embeds.  `\s` and `\d` are modelled over their ASCII ranges
  (Python additionally treats some non-ASCII code points as whitespace or
  digits; no input in any theorem or counterexample uses those).
* The well-typed restriction of `build_notion_blocks` (inputs of the shape
  the upstream contract in the spec promises: topics with string titles,
  task dicts with string text, string notes and questions) is embedded as
  pure functions over `Topic`/`Task` (`build_notion_blocks` below).
* The dynamic behaviour on arbitrary JSON-like values — including the
  exceptions Python raises on unexpectedly-typed fields — is embedded over
  `PyVal` in an error monad (`buildPy` below), used by the claims about
  failure semantics.
-/

namespace NotionFormat

/-- Lean string literal to Python string model. -/
def toL (s : String) : List Char := s.data

/-- Python `str.strip()` whitespace test, ASCII range (`' '`, `\t`, `\n`,
`\r`, `\x0b`, `\x0c`).  The same set is what `\s` matches in the regexes. -/
def pyIsSpace (c : Char) : Bool :=
  c = ' ' || c = '\t' || c = '\n' || c = '\r' || c = '\x0b' || c = '\x0c'

/-- Left strip: drop leading whitespace. -/
def lstrip (s : List Char) : List Char := s.dropWhile pyIsSpace

/-- Right strip: drop trailing whitespace. -/
def rstrip (s : List Char) : List Char := (s.reverse.dropWhile pyIsSpace).reverse

/-- Python `s.strip()`. -/
def pyStrip (s : List Char) : List Char := rstrip (lstrip s)

/-- The character class `[.\-xX\?]` of `_PREFIX_RE`. -/
def leakChar (c : Char) : Bool :=
  c = '.' || c = '-' || c = 'x' || c = 'X' || c = '?'

/-- `_PREFIX_RE.sub("", s)` for `_PREFIX_RE = ^\s*([.\-xX\?])\s+`:
if the string is optional whitespace, then one leaked-annotation character,
then at least one whitespace character, the whole (greedy) match is removed;
otherwise the string is returned unchanged. -/
def prefixSub (s : List Char) : List Char :=
  match s.dropWhile pyIsSpace with
  | c :: rest =>
    if leakChar c then
      match rest with
      | d :: _ => if pyIsSpace d then rest.dropWhile pyIsSpace else s
      | [] => s
    else s
  | [] => s

/-- `strip_known_prefix` of the source (the name is camel-cased):
`s.strip()`, one `_PREFIX_RE` substitution, `strip()` again. -/
def stripKnownPrefix (s : List Char) : List Char :=
  pyStrip (prefixSub (pyStrip s))

/-- `_is_hash_header_line`: match of `_HASH_TITLE_RE = ^\s*#\s*(.+)\s*$`
against the line, returning the stripped group 1 (`None` for no match or a
title that strips to empty).  The regex, matched greedily: after optional
whitespace a literal `#`, then greedy `\s*` (which may cross newlines),
then `(.+)` — one or more characters other than `\n` —, and `\s*$` succeeds
exactly when everything left is whitespace. -/
def _is_hash_header_line (line : List Char) : Option (List Char) :=
  match line.dropWhile pyIsSpace with
  | '#' :: r =>
    let body := r.dropWhile pyIsSpace
    let g1 := body.takeWhile (fun c => !(c = '\n'))
    let tail := body.drop g1.length
    if g1 = [] ∨ ¬ (tail.all pyIsSpace = true) then none
    else
      let title := pyStrip g1
      if title = [] then none else some title
  | _ => none

/-- Group 2 of `_NUM_RE = ^\s*(\d+)\.\s+(.*)` (`None` when there is no
match): optional whitespace, one or more ASCII digits, a literal dot, at
least one whitespace character (greedy, may cross newlines), then `(.*)` —
the rest of the string up to the first `\n`. -/
def numGroup2 (s : List Char) : Option (List Char) :=
  let s1 := s.dropWhile pyIsSpace
  let ds := s1.takeWhile Char.isDigit
  if ds = [] then none
  else
    match s1.drop ds.length with
    | '.' :: r =>
      match r with
      | d :: _ =>
        if pyIsSpace d then some ((r.dropWhile pyIsSpace).takeWhile (fun c => !(c = '\n')))
        else none
      | [] => none
    | _ => none

/-- The numeric correction applied to a classified question, factored from
the two identical occurrences in `_split_prefix_kind`:
`m = _NUM_RE.match(q); if m: q = (m.group(2) or "").strip()`. -/
def _question_fix (q : List Char) : List Char :=
  match numGroup2 q with
  | some g2 => pyStrip g2
  | none => q

/-- `_BULLET_TASK_PREFIXES = ("•", "·", "∙", "◦", "○")`. -/
def bulletChar (c : Char) : Bool :=
  c = '•' || c = '·' || c = '∙' || c = '◦' || c = '○'

/-- The five classification kinds returned by `_split_prefix_kind`
(the source uses the strings `"hash"`, `"task_open"`, `"task_done"`,
`"question"`, `"note"`). -/
inductive Kind where
  | hash
  | task_open
  | task_done
  | question
  | note
deriving DecidableEq, Repr

/-- The tail consumed by a matched prefix pair of tests: the source first
tries `startswith("<c> ")` and takes `s[2:]`, then `startswith("<c>")` and
takes `s[1:]`; with `t = s[1:]` both arms are `t` minus one leading
literal space when there is one. -/
def afterOneSpace (t : List Char) : List Char :=
  match t with
  | t0 :: t2 => if t0 = ' ' then t2 else t0 :: t2
  | [] => []

/-- The prefix cascade of `_split_prefix_kind` on the trimmed, non-empty,
non-section-marker line `s`.  Each alternative merges one pair of
`startswith` tests of the source (with-space and without, see
`afterOneSpace`), in the source's order — the tests for different prefix
characters are mutually exclusive, so grouping by first character keeps
the order.  `s.lower().startswith("x ")`/`("x")` is the first character
being `x` or `X` (`lower` does not change any character into a space). -/
def classifyTrimmed (s : List Char) : Kind × List Char :=
  match s with
  | [] => (Kind.note, [])                                -- unreachable: s ≠ []
  | c :: t =>
    if c = '.' then (Kind.task_open, pyStrip (afterOneSpace t))
    else if c = 'x' ∨ c = 'X' then (Kind.task_done, pyStrip (afterOneSpace t))
    else if c = '?' then (Kind.question, _question_fix (pyStrip (afterOneSpace t)))
    else if c = '-' then (Kind.note, pyStrip (afterOneSpace t))
    else if bulletChar c then (Kind.task_open, pyStrip t)
    else (Kind.note, s)

/-- `_split_prefix_kind`: trim; empty → `(note, "")`; a hash section marker
(detected after `strip_known_prefix`, so a marker survives one leaked
prefix) wins over everything; otherwise the explicit-prefix cascade on the
original trimmed string. -/
def _split_prefix_kind (raw : List Char) : Kind × List Char :=
  let s := pyStrip raw
  if s = [] then (Kind.note, [])
  else
    match _is_hash_header_line (stripKnownPrefix s) with
    | some h => (Kind.hash, h)
    | none => classifyTrimmed s

/-! ## Typed data model

The shape the upstream transcription contract promises (§6 of the spec):
topics with a string title, tasks `{text, done}`, notes and questions as
strings.  `build_notion_blocks` below is the source function restricted to
inputs of this shape; `buildPy` further down models it on arbitrary
JSON-like values. -/

/-- A task `{"text": ..., "done": ...}`. -/
structure Task where
  text : List Char
  done : Bool
deriving DecidableEq, Repr

/-- A topic of the parsed transcription, and also a topic bucket inside a
section (the source uses the same dict shape for both). -/
structure Topic where
  title : List Char
  tasks : List Task
  notes : List (List Char)
  questions : List (List Char)
deriving DecidableEq, Repr

/-- A section (logical entry) of the output: `{"title": ..., "topics": [...]}`. -/
structure Entry where
  title : List Char
  topics : List Topic
deriving DecidableEq, Repr

/-- A rendered output block.  Each constructor stands for one of the block
dicts built by the source, keeping exactly the data that varies:
`heading_2` holds the ISO date string of its date mention and the text of
its second rich-text span (`" — <title>"`); `image` holds the caption text
and the file-upload id; `to_do` the text and checked state; the list items
their text; `paragraph` its text. -/
inductive Block where
  | heading_2 (dateIso : List Char) (text : List Char)
  | image (caption : List Char) (uploadId : List Char)
  | paragraph (text : List Char)
  | divider
  | heading_3 (text : List Char)
  | to_do (text : List Char) (checked : Bool)
  | numbered_list_item (text : List Char)
  | bulleted_list_item (text : List Char)
deriving DecidableEq, Repr

/-- A fresh topic bucket: `{"title": t, "tasks": [], "notes": [], "questions": []}`. -/
def freshBucket (title : List Char) : Topic := ⟨title, [], [], []⟩

/-- `_get_topic_bucket` / `_pending_bucket` as a functional update: find the
first bucket with this exact title and apply `f` to it; if none exists,
append a fresh bucket (insertion order kept) and apply `f` to that. -/
def bucketUpd (f : Topic → Topic) (title : List Char) : List Topic → List Topic
  | [] => [f (freshBucket title)]
  | b :: bs => if b.title = title then f b :: bs else b :: bucketUpd f title bs

/-- State of the routing walk of `build_notion_blocks`.  In the source,
`current_section` always refers to the last element of `sections` (it is
set exactly when a section is appended), so the section list is kept here
as the closed ones plus the optional current one; `current = none` is the
source's `current_section is None`, and the source's `sections` list is
`closed ++ current.toList`. -/
structure RState where
  closed : List Entry
  current : Option Entry
  pending : List Topic
deriving Repr

/-- Append content to the bucket named `title` of the current section, or
of the pending list when no section is open yet. -/
def RState.add (st : RState) (title : List Char) (f : Topic → Topic) : RState :=
  match st.current with
  | none => { st with pending := bucketUpd f title st.pending }
  | some sec => { st with current := some { sec with topics := bucketUpd f title sec.topics } }

/-- `_ensure_section` plus the first-marker pending flush: a new empty
section becomes current; if no section was open, the pending buckets move
into it (`_flush_pending_into`). -/
def RState.startEntry (st : RState) (title : List Char) : RState :=
  match st.current with
  | none => ⟨st.closed, some ⟨title, st.pending⟩, []⟩
  | some sec => ⟨st.closed ++ [sec], some ⟨title, []⟩, st.pending⟩

/-- `topic_title = (t.get("title") or "General").strip() or "General"`. -/
def topicTitleOf (t : Topic) : List Char :=
  let s := pyStrip (if t.title = [] then toL "General" else t.title)
  if s = [] then toL "General" else s

/-- Step of the trusted-tasks loop: skip a task whose text strips to empty,
else append the task dict verbatim to the bucket. -/
def routeTask (title : List Char) (st : RState) (task : Task) : RState :=
  if pyStrip task.text = [] then st
  else st.add title (fun b => { b with tasks := b.tasks ++ [task] })

/-- Step of the trusted-questions loop: `strip_known_prefix`, skip empties. -/
def routeQuestion (title : List Char) (st : RState) (q : List Char) : RState :=
  let qc := stripKnownPrefix q
  if qc = [] then st
  else st.add title (fun b => { b with questions := b.questions ++ [qc] })

/-- Step of the notes loop: classify, start a section on a hash marker,
skip empty text, else append to the kind's list of the bucket. -/
def routeNote (title : List Char) (st : RState) (raw : List Char) : RState :=
  let kt := _split_prefix_kind raw
  if kt.1 = Kind.hash then st.startEntry kt.2
  else if kt.2 = [] then st
  else
    match kt.1 with
    | Kind.task_open => st.add title (fun b => { b with tasks := b.tasks ++ [⟨kt.2, false⟩] })
    | Kind.task_done => st.add title (fun b => { b with tasks := b.tasks ++ [⟨kt.2, true⟩] })
    | Kind.question => st.add title (fun b => { b with questions := b.questions ++ [kt.2] })
    | _ => st.add title (fun b => { b with notes := b.notes ++ [kt.2] })

/-- One topic of the routing walk: tasks, then questions, then notes. -/
def routeTopic (st : RState) (t : Topic) : RState :=
  let title := topicTitleOf t
  let st1 := t.tasks.foldl (routeTask title) st
  let st2 := t.questions.foldl (routeQuestion title) st1
  t.notes.foldl (routeNote title) st2

/-- `_section_has_content`: some bucket has a non-empty tasks, notes or
questions list (Python truthiness of the lists). -/
def _section_has_content (e : Entry) : Bool :=
  e.topics.any (fun t => !t.tasks.isEmpty || !t.notes.isEmpty || !t.questions.isEmpty)

/-- The fixed fallback section title. -/
def fallbackTitle : List Char := toL "Handwritten notes"

/-- The section list `build_notion_blocks` renders: route all topics; if no
hash marker ever opened a section, one default section takes the pending
buckets; drop contentless sections; if nothing is left, a single empty
fallback section. -/
def buildSections (topics : List Topic) : List Entry :=
  let st := topics.foldl routeTopic ⟨[], none, []⟩
  let secs := st.closed ++ (match st.current with | some e => [e] | none => [])
  let secs := if secs.isEmpty then [⟨fallbackTitle, st.pending⟩] else secs
  let kept := secs.filter _section_has_content
  if kept.isEmpty then [⟨fallbackTitle, []⟩] else kept

/-- Render one task: skip if the text strips to empty, else a `to_do`
block with `checked = bool(task.get("done", False))`. -/
def renderTask (task : Task) : Option Block :=
  let text := pyStrip task.text
  if text = [] then none else some (.to_do text task.done)

/-- Render one note: skip empties; on a `_NUM_RE` match a numbered list
item with the stripped group 2 (skipped when that strips to empty), else a
bulleted list item with the note text. -/
def renderNote (note : List Char) : Option Block :=
  let note := pyStrip note
  if note = [] then none
  else
    match numGroup2 note with
    | some g2 =>
      let text := pyStrip g2
      if text = [] then none else some (.numbered_list_item text)
    | none => some (.bulleted_list_item note)

/-- Render one question: skip empties, else a bulleted list item
`f"❓ {q}"`. -/
def renderQuestion (q : List Char) : Option Block :=
  let q := pyStrip q
  if q = [] then none else some (.bulleted_list_item ('❓' :: ' ' :: q))

/-- Render one topic bucket: its `heading_3`, then its tasks, notes and
questions in order. -/
def renderTopic (t : Topic) : List Block :=
  Block.heading_3 t.title ::
    (t.tasks.filterMap renderTask ++ t.notes.filterMap renderNote
      ++ t.questions.filterMap renderQuestion)

/-- The one source block: an image block with caption
`f"Source image: {filename}"` when an upload id is present, else a
paragraph `f"Source: {filename}"`. -/
def sourceBlock (filename : List Char) (img : Option (List Char)) : Block :=
  match img with
  | some i => .image (toL "Source image: " ++ filename) i
  | none => .paragraph (toL "Source: " ++ filename)

/-- Text of the second rich-text span of a section heading: `f" — {title}"`. -/
def emdashTitle (title : List Char) : List Char := ' ' :: '—' :: ' ' :: title

/-- Render one section: `heading_2` (date mention plus em-dash title), the
source block on the first section only, a divider, then the topic buckets. -/
def renderEntry (filename : List Char) (img : Option (List Char)) (now : List Char)
    (isFirst : Bool) (e : Entry) : List Block :=
  Block.heading_2 now (emdashTitle e.title)
    :: ((if isFirst then [sourceBlock filename img] else [])
        ++ Block.divider :: (e.topics.map renderTopic).flatten)

/-- The default topic `{"title": "General", "tasks": [], "notes": [], "questions": []}`
substituted for a missing, null or empty topics list. -/
def withDefaultTopics (topics : List Topic) : List Topic :=
  if topics.isEmpty then [⟨toL "General", [], [], []⟩] else topics

/-- `build_notion_blocks` on well-typed input: parsed topics, filename,
optional image upload id, and the timestamp (already rendered to its ISO
string, the only use the source makes of `now`). -/
def build_notion_blocks (topics : List Topic) (filename : List Char)
    (image_upload_id : Option (List Char)) (now : List Char) : List Block :=
  match buildSections (withDefaultTopics topics) with
  | [] => []
  | e :: rest =>
    renderEntry filename image_upload_id now true e
      ++ (rest.map (renderEntry filename image_upload_id now false)).flatten

/-! ## Dynamic values and exception semantics

`build_notion_blocks` takes `parsed: Dict[str, Any]`; nothing guarantees
the nested fields have the documented types.  `PyVal` models the JSON-like
values that can appear there, and `PyM` (an error monad) carries the
exceptions Python raises when an operation is applied to a value of the
wrong type.  `buildPy` re-traces the source statement by statement over
these values; it agrees with `build_notion_blocks` on well-typed input. -/

/-- A Python value as far as the formatter can observe it. -/
inductive PyVal where
  | none
  | bool (b : Bool)
  | int (n : Int)
  | str (s : List Char)
  | list (xs : List PyVal)
  | dict (kvs : List (List Char × PyVal))

/-- Python truthiness (`or`, `if not text`, `bool(...)`). -/
def truthy : PyVal → Bool
  | .none => false
  | .bool b => b
  | .int n => !(n = 0)
  | .str s => !s.isEmpty
  | .list xs => !xs.isEmpty
  | .dict kvs => !kvs.isEmpty

/-- One character of a `repr()`-style quoted string, simplified: only
backslash, quote, newline, CR and tab are escaped. -/
def pyEscChar (c : Char) : List Char :=
  if c = '\\' ∨ c = '\'' then ['\\', c]
  else if c = '\n' then ['\\', 'n']
  else if c = '\r' then ['\\', 'r']
  else if c = '\t' then ['\\', 't']
  else [c]

/-- `repr()` of a string, simplified (Python also switches quote style when
the string holds a quote, and escapes other control characters; no theorem
inspects this text — it only feeds `str()` of a container). -/
def reprQuoted (s : List Char) : List Char :=
  '\'' :: (s.map pyEscChar).flatten ++ ['\'']

mutual

/-- Python `repr()` of a value (see `reprQuoted` for the simplification). -/
def pyRepr : PyVal → List Char
  | .none => toL "None"
  | .bool true => toL "True"
  | .bool false => toL "False"
  | .int n => toL (toString n)
  | .str s => reprQuoted s
  | .list xs => '[' :: pyReprSeq xs ++ [']']
  | .dict kvs => Char.ofNat 123 :: pyReprPairs kvs ++ [Char.ofNat 125]

/-- Comma-separated `repr()`s of list elements. -/
def pyReprSeq : List PyVal → List Char
  | [] => []
  | [v] => pyRepr v
  | v :: vs => pyRepr v ++ ',' :: ' ' :: pyReprSeq vs

/-- Comma-separated `key: value` `repr()`s of dict items. -/
def pyReprPairs : List (List Char × PyVal) → List Char
  | [] => []
  | [(k, v)] => reprQuoted k ++ ':' :: ' ' :: pyRepr v
  | (k, v) :: ps => reprQuoted k ++ ':' :: ' ' :: pyRepr v ++ ',' :: ' ' :: pyReprPairs ps

end

/-- Python `str()`: identity on strings, `repr()`-based otherwise. -/
def pyStr : PyVal → List Char
  | .str s => s
  | v => pyRepr v

/-- Computations that may raise a Python exception. -/
abbrev PyM := Except String

/-- Lookup in a dict's pair list, defaulting to `None` (`dict.get`). -/
def dictGet (kvs : List (List Char × PyVal)) (k : List Char) : PyVal :=
  match kvs.find? (fun p => p.1 = k) with
  | some p => p.2
  | none => .none

/-- Lookup in a dict's pair list with an explicit default (`dict.get(k, d)`). -/
def dictGetD (kvs : List (List Char × PyVal)) (k : List Char) (d : PyVal) : PyVal :=
  match kvs.find? (fun p => p.1 = k) with
  | some p => p.2
  | none => d

/-- `v.get(k)`: dict lookup defaulting to `None`; `AttributeError` on
anything that is not a dict. -/
def pyGet (v : PyVal) (k : List Char) : PyM PyVal :=
  match v with
  | .dict kvs => pure (dictGet kvs k)
  | _ => Except.error "AttributeError: no attribute get"

/-- `v.get(k, d)`: dict lookup with explicit default. -/
def pyGetD (v : PyVal) (k : List Char) (d : PyVal) : PyM PyVal :=
  match v with
  | .dict kvs => pure (dictGetD kvs k d)
  | _ => Except.error "AttributeError: no attribute get"

/-- `v.strip()`: `AttributeError` unless `v` is a string. -/
def pyStripM (v : PyVal) : PyM (List Char) :=
  match v with
  | .str s => pure (pyStrip s)
  | _ => Except.error "AttributeError: no attribute strip"

/-- `for x in v`: elements of a list, one-character strings of a string,
keys of a dict; `TypeError` otherwise. -/
def pyIter (v : PyVal) : PyM (List PyVal) :=
  match v with
  | .list xs => pure xs
  | .str s => pure (s.map (fun c => .str [c]))
  | .dict kvs => pure (kvs.map (fun p => .str p.1))
  | _ => Except.error "TypeError: not iterable"

/-- A topic bucket during the dynamic walk: trusted task dicts are appended
verbatim (whatever value they are — the source re-reads `task.get("text")`
at render time), while notes and questions are, by construction, always
the strings the classifier produced. -/
structure PyBucket where
  title : List Char
  tasks : List PyVal
  notes : List (List Char)
  questions : List (List Char)

/-- A section over dynamic buckets. -/
structure PyEntry where
  title : List Char
  topics : List PyBucket

/-- Routing state over dynamic buckets (see `RState`). -/
structure PyState where
  closed : List PyEntry
  current : Option PyEntry
  pending : List PyBucket

/-- `_get_topic_bucket` / `_pending_bucket` over dynamic buckets. -/
def bucketUpdPy (f : PyBucket → PyBucket) (title : List Char) :
    List PyBucket → List PyBucket
  | [] => [f ⟨title, [], [], []⟩]
  | b :: bs => if b.title = title then f b :: bs else b :: bucketUpdPy f title bs

/-- Append to the bucket named `title` of the current section or of the
pending list. -/
def PyState.add (st : PyState) (title : List Char) (f : PyBucket → PyBucket) : PyState :=
  match st.current with
  | none => { st with pending := bucketUpdPy f title st.pending }
  | some sec => { st with current := some { sec with topics := bucketUpdPy f title sec.topics } }

/-- `_ensure_section` plus the first-marker pending flush. -/
def PyState.startEntry (st : PyState) (title : List Char) : PyState :=
  match st.current with
  | none => ⟨st.closed, some ⟨title, st.pending⟩, []⟩
  | some sec => ⟨st.closed ++ [sec], some ⟨title, []⟩, st.pending⟩

/-- Trusted-tasks loop body:
`text = (task.get("text") or "").strip()` — this is where a task whose
`text` is a truthy non-string raises — then append the task verbatim. -/
def routeTaskPy (title : List Char) (st : PyState) (task : PyVal) : PyM PyState := do
  let tv ← pyGet task (toL "text")
  let text ← pyStripM (if truthy tv then tv else .str [])
  if text = [] then pure st
  else pure (st.add title (fun b => { b with tasks := b.tasks ++ [task] }))

/-- Trusted-questions loop body: `strip_known_prefix(str(q))`, skip empty —
never raises. -/
def routeQuestionPy (title : List Char) (st : PyState) (q : PyVal) : PyState :=
  let qc := stripKnownPrefix (pyStr q)
  if qc = [] then st
  else st.add title (fun b => { b with questions := b.questions ++ [qc] })

/-- Notes loop body: `_split_prefix_kind(str(raw_note))`, then route —
never raises. -/
def routeNotePy (title : List Char) (st : PyState) (raw : PyVal) : PyState :=
  let kt := _split_prefix_kind (pyStr raw)
  if kt.1 = Kind.hash then st.startEntry kt.2
  else if kt.2 = [] then st
  else
    match kt.1 with
    | Kind.task_open => st.add title (fun b => { b with tasks := b.tasks ++ [.dict [(toL "text", .str kt.2), (toL "done", .bool false)]] })
    | Kind.task_done => st.add title (fun b => { b with tasks := b.tasks ++ [.dict [(toL "text", .str kt.2), (toL "done", .bool true)]] })
    | Kind.question => st.add title (fun b => { b with questions := b.questions ++ [kt.2] })
    | _ => st.add title (fun b => { b with notes := b.notes ++ [kt.2] })

/-- One topic of the dynamic routing walk:
`topic_title = (t.get("title") or "General").strip() or "General"`, then
the tasks, questions and notes loops, each over `t.get(...) or []`. -/
def routeTopicPy (st : PyState) (t : PyVal) : PyM PyState := do
  let tv ← pyGet t (toL "title")
  let t1 ← pyStripM (if truthy tv then tv else .str (toL "General"))
  let title := if t1 = [] then toL "General" else t1
  let tasksV ← pyGet t (toL "tasks")
  let taskL ← pyIter (if truthy tasksV then tasksV else .list [])
  let st1 ← taskL.foldlM (routeTaskPy title) st
  let qsV ← pyGet t (toL "questions")
  let qL ← pyIter (if truthy qsV then qsV else .list [])
  let st2 := qL.foldl (routeQuestionPy title) st1
  let notesV ← pyGet t (toL "notes")
  let nL ← pyIter (if truthy notesV then notesV else .list [])
  pure (nL.foldl (routeNotePy title) st2)

/-- `_section_has_content` over dynamic buckets. -/
def pyEntryHasContent (e : PyEntry) : Bool :=
  e.topics.any (fun t => !t.tasks.isEmpty || !t.notes.isEmpty || !t.questions.isEmpty)

/-- Render one trusted task dict: re-reads and re-strips
`task.get("text")` (raising again on a truthy non-string), and
`bool(task.get("done", False))`. -/
def renderTaskPy (task : PyVal) : PyM (Option Block) := do
  let tv ← pyGet task (toL "text")
  let text ← pyStripM (if truthy tv then tv else .str [])
  if text = [] then pure Option.none
  else do
    let dv ← pyGetD task (toL "done") (.bool false)
    pure (some (.to_do text (truthy dv)))

/-- Render one dynamic bucket: the task loop appends each rendered task
(skips return nothing), exactly as the source's append loop; notes and
questions are strings, so their rendering is the shared pure one. -/
def renderBucketPy (b : PyBucket) : PyM (List Block) := do
  let tblocks ← b.tasks.foldlM (fun acc task => do
    let ob ← renderTaskPy task
    pure (acc ++ ob.toList)) []
  pure (Block.heading_3 b.title ::
    (tblocks ++ b.notes.filterMap renderNote
      ++ b.questions.filterMap renderQuestion))

/-- Render one dynamic section, appending bucket after bucket. -/
def renderEntryPy (filename : List Char) (img : Option (List Char)) (now : List Char)
    (isFirst : Bool) (e : PyEntry) : PyM (List Block) := do
  let tb ← e.topics.foldlM (fun acc b => do
    let bs ← renderBucketPy b
    pure (acc ++ bs)) []
  pure (Block.heading_2 now (emdashTitle e.title)
    :: ((if isFirst then [sourceBlock filename img] else [])
        ++ Block.divider :: tb))

/-- The default topic dict substituted for a falsy `topics` value. -/
def defaultTopicPy : PyVal :=
  .dict [(toL "title", .str (toL "General")), (toL "tasks", .list []),
         (toL "notes", .list []), (toL "questions", .list [])]

/-- The final `for idx, section in enumerate(sections)` render loop:
the first section carries the source block, later ones are appended. -/
def renderSecsPy (filename : List Char) (img : Option (List Char)) (now : List Char) :
    List PyEntry → PyM (List Block)
  | [] => pure []
  | e :: rest => do
    let b0 ← renderEntryPy filename img now true e
    rest.foldlM (fun acc e2 => do
      let bs ← renderEntryPy filename img now false e2
      pure (acc ++ bs)) b0

/-- `build_notion_blocks` over dynamic values, statement by statement:
`parsed.get("topics") or [default]`, the routing walk, the default and
fallback sections, the filter, and the render loop. -/
def buildPy (parsed : PyVal) (filename : List Char)
    (image_upload_id : Option (List Char)) (now : List Char) : PyM (List Block) := do
  let tv ← pyGet parsed (toL "topics")
  let topics ← pyIter (if truthy tv then tv else .list [defaultTopicPy])
  let st ← topics.foldlM routeTopicPy ⟨[], Option.none, []⟩
  let secs := st.closed ++ st.current.toList
  let secs := if secs.isEmpty then [(⟨fallbackTitle, st.pending⟩ : PyEntry)] else secs
  let kept := secs.filter pyEntryHasContent
  let secs := if kept.isEmpty then [(⟨fallbackTitle, []⟩ : PyEntry)] else kept
  renderSecsPy filename image_upload_id now secs

/-! ## Predicates used by the claim statements -/

/-- Is a block an image attachment block? -/
def isImageBlock : Block → Bool
  | .image _ _ => true
  | _ => false

/-- Is a block the `"Source: <filename>"` paragraph? -/
def isSourceParagraph (filename : List Char) (b : Block) : Bool :=
  decide (b = Block.paragraph (toL "Source: " ++ filename))

/-- Is a block a section heading? -/
def isHeading2 : Block → Bool
  | .heading_2 _ _ => true
  | _ => false

/-- A note line that does not classify as a section marker. -/
def notHashNote (n : List Char) : Bool :=
  match (_split_prefix_kind n).1 with
  | Kind.hash => false
  | _ => true

/-- No note of any topic classifies as a section marker. -/
def hashFree (ts : List Topic) : Bool :=
  ts.all (fun t => t.notes.all notHashNote)

/-- A string, or any falsy value (which `x or <default>` replaces). -/
def strOrFalsy : PyVal → Bool
  | .str _ => true
  | v => !truthy v

/-- A list all of whose elements satisfy `p`, or a falsy value (which
`x or []` replaces by the empty list). -/
def listOrFalsy (p : PyVal → Bool) : PyVal → Bool
  | .list xs => xs.all p
  | v => !truthy v

/-- A task value the formatter can process without raising: a dict whose
`text` is a string or falsy. -/
def wfTask : PyVal → Bool
  | .dict kvs => strOrFalsy (dictGet kvs (toL "text"))
  | _ => false

/-- A topic value the formatter can process without raising: a dict whose
`title` is a string or falsy, whose `tasks` is a list of processable task
dicts or falsy, and whose `notes` and `questions` are lists (of anything —
those entries are `str()`-coerced) or falsy. -/
def wfTopic : PyVal → Bool
  | .dict kvs =>
    strOrFalsy (dictGet kvs (toL "title"))
      && listOrFalsy wfTask (dictGet kvs (toL "tasks"))
      && listOrFalsy (fun _ => true) (dictGet kvs (toL "notes"))
      && listOrFalsy (fun _ => true) (dictGet kvs (toL "questions"))
  | _ => false

/-- A parsed value the formatter can process without raising: a dict whose
`topics` is a list of processable topics or falsy. -/
def wfParsed : PyVal → Bool
  | .dict kvs => listOrFalsy wfTopic (dictGet kvs (toL "topics"))
  | _ => false

/-- A task entry carrying no content: a dict whose `text` is a
whitespace-only string or falsy. -/
def emptyishTask : PyVal → Bool
  | .dict kvs =>
    match dictGet kvs (toL "text") with
    | .str s => (pyStrip s).isEmpty
    | w => !truthy w
  | _ => false

/-- A topic carrying no content: a processable dict whose tasks are
contentless, and whose notes and questions all `str()`-coerce to
whitespace-only strings (in particular: absent, null, empty lists, or
whitespace-only strings). -/
def emptyishTopic : PyVal → Bool
  | .dict kvs =>
    strOrFalsy (dictGet kvs (toL "title"))
      && listOrFalsy emptyishTask (dictGet kvs (toL "tasks"))
      && listOrFalsy (fun v => (pyStrip (pyStr v)).isEmpty) (dictGet kvs (toL "notes"))
      && listOrFalsy (fun v => (pyStrip (pyStr v)).isEmpty) (dictGet kvs (toL "questions"))
  | _ => false

/-- A parsed value with no content at all: a dict whose `topics` is a list
of contentless topics or falsy. -/
def emptyishParsed : PyVal → Bool
  | .dict kvs => listOrFalsy emptyishTopic (dictGet kvs (toL "topics"))
  | _ => false

/-- All trusted task values stored in a list of buckets can be re-read at
render time without raising. -/
def GoodBuckets (bs : List PyBucket) : Prop :=
  ∀ b ∈ bs, ∀ v ∈ b.tasks, wfTask v = true

/-- The routing-state invariant for the no-raise theorem: every stored
task value is a dict with string-or-falsy text. -/
def GoodState (st : PyState) : Prop :=
  (∀ e ∈ st.closed, GoodBuckets e.topics)
  ∧ (∀ e, st.current = some e → GoodBuckets e.topics)
  ∧ GoodBuckets st.pending

/-- "No section has been opened": the source's `current_section is None`
with an empty section list. -/
def NoSec (st : RState) : Prop := st.closed = [] ∧ st.current = none

/-! ## Library: Python string stripping -/

theorem dropWhile_self_dropWhile (p : Char → Bool) (l : List Char) :
    (l.dropWhile p).dropWhile p = l.dropWhile p := by
  induction l with
  | nil => rfl
  | cons a t ih =>
    by_cases h : p a
    · simp [List.dropWhile_cons, h, ih]
    · simp [List.dropWhile_cons, h]

theorem lstrip_cons_of_space {c : Char} (t : List Char) (h : pyIsSpace c = true) :
    lstrip (c :: t) = lstrip t := by
  simp [lstrip, List.dropWhile_cons, h]

theorem lstrip_cons_of_nonspace {c : Char} (t : List Char) (h : pyIsSpace c = false) :
    lstrip (c :: t) = c :: t := by
  simp [lstrip, List.dropWhile_cons, h]

theorem lstrip_eq_nil_iff {l : List Char} : lstrip l = [] ↔ l.all pyIsSpace = true := by
  simp [lstrip, List.dropWhile_eq_nil_iff, List.all_eq_true]

theorem rstrip_eq_nil_iff {l : List Char} : rstrip l = [] ↔ l.all pyIsSpace = true := by
  simp [rstrip, List.dropWhile_eq_nil_iff, List.all_eq_true]

theorem rstrip_cons (a : Char) (t : List Char) :
    rstrip (a :: t)
      = if t.all pyIsSpace = true then (if pyIsSpace a = true then [] else [a])
        else a :: rstrip t := by
  unfold rstrip
  rw [show (a :: t).reverse = t.reverse ++ [a] by simp, List.dropWhile_append]
  by_cases h : t.all pyIsSpace = true
  · have h0 : t.reverse.dropWhile pyIsSpace = [] := by
      rw [List.dropWhile_eq_nil_iff]
      intro x hx
      exact List.all_eq_true.mp h x (List.mem_reverse.mp hx)
    by_cases ha : pyIsSpace a = true <;>
      simp [h0, h, ha, List.dropWhile_cons]
  · have h0 : ¬ (t.reverse.dropWhile pyIsSpace = []) := by
      rw [List.dropWhile_eq_nil_iff]
      intro hall
      exact h (List.all_eq_true.mpr (fun x hx => hall x (List.mem_reverse.mpr hx)))
    simp [h, List.isEmpty_iff, h0]

theorem lstrip_idem (l : List Char) : lstrip (lstrip l) = lstrip l :=
  dropWhile_self_dropWhile pyIsSpace l

theorem rstrip_idem (l : List Char) : rstrip (rstrip l) = rstrip l := by
  unfold rstrip
  rw [List.reverse_reverse, dropWhile_self_dropWhile]

theorem lstrip_rstrip (l : List Char) : lstrip (rstrip l) = rstrip (lstrip l) := by
  induction l with
  | nil => rfl
  | cons a t ih =>
    by_cases hws : pyIsSpace a = true
    · rw [lstrip_cons_of_space t hws, ← ih, rstrip_cons]
      by_cases hall : t.all pyIsSpace = true
      · simp [hall, hws, rstrip_eq_nil_iff.mpr hall, lstrip]
      · simp [hall, lstrip_cons_of_space _ hws]
    · have hws' : pyIsSpace a = false := by simpa using hws
      rw [lstrip_cons_of_nonspace t hws', rstrip_cons]
      by_cases hall : t.all pyIsSpace = true
      · simp [hall, hws', rstrip_cons, lstrip_cons_of_nonspace _ hws']
      · simp [hall, lstrip_cons_of_nonspace _ hws', rstrip_cons]

theorem pyStrip_idem (l : List Char) : pyStrip (pyStrip l) = pyStrip l := by
  unfold pyStrip
  rw [lstrip_rstrip, rstrip_idem, lstrip_idem]

theorem pyStrip_cons_space {c : Char} (t : List Char) (h : pyIsSpace c = true) :
    pyStrip (c :: t) = pyStrip t := by
  unfold pyStrip
  rw [lstrip_cons_of_space t h]

theorem pyStrip_afterOneSpace (t : List Char) :
    pyStrip (afterOneSpace t) = pyStrip t := by
  cases t with
  | nil => rfl
  | cons a t2 =>
    by_cases h : a = ' '
    · subst h
      simpa [afterOneSpace] using (pyStrip_cons_space t2 (by decide)).symm
    · simp [afterOneSpace, h]

theorem all_lstrip (l : List Char) : (lstrip l).all pyIsSpace = l.all pyIsSpace := by
  induction l with
  | nil => rfl
  | cons a t ih =>
    by_cases h : pyIsSpace a = true
    · rw [lstrip_cons_of_space t h, List.all_cons, h, Bool.true_and, ih]
    · have h' : pyIsSpace a = false := by simpa using h
      rw [lstrip_cons_of_nonspace t h']

theorem pyStrip_eq_nil_iff {l : List Char} : pyStrip l = [] ↔ l.all pyIsSpace = true := by
  unfold pyStrip
  rw [rstrip_eq_nil_iff, all_lstrip]

/-! ## Library: classifier reductions -/

theorem classify_dot (r : List Char) :
    classifyTrimmed ('.' :: r) = (Kind.task_open, pyStrip r) := by
  simp [classifyTrimmed, pyStrip_afterOneSpace]

theorem classify_x (r : List Char) :
    classifyTrimmed ('x' :: r) = (Kind.task_done, pyStrip r) := by
  simp [classifyTrimmed, pyStrip_afterOneSpace]

theorem classify_X (r : List Char) :
    classifyTrimmed ('X' :: r) = (Kind.task_done, pyStrip r) := by
  simp [classifyTrimmed, pyStrip_afterOneSpace]

theorem classify_q (r : List Char) :
    classifyTrimmed ('?' :: r) = (Kind.question, _question_fix (pyStrip r)) := by
  simp [classifyTrimmed, pyStrip_afterOneSpace]

theorem classify_dash (r : List Char) :
    classifyTrimmed ('-' :: r) = (Kind.note, pyStrip r) := by
  simp [classifyTrimmed, pyStrip_afterOneSpace]

theorem classify_bullet {c : Char} (r : List Char) (h : bulletChar c = true) :
    classifyTrimmed (c :: r) = (Kind.task_open, pyStrip r) := by
  have h1 : ¬ (c = '.') := by rintro rfl; simp [bulletChar] at h
  have h2 : ¬ (c = 'x' ∨ c = 'X') := by rintro (rfl | rfl) <;> simp [bulletChar] at h
  have h3 : ¬ (c = '?') := by rintro rfl; simp [bulletChar] at h
  have h4 : ¬ (c = '-') := by rintro rfl; simp [bulletChar] at h
  simp [classifyTrimmed, h1, h2, h3, h4, h]

theorem split_eq_classify (raw : List Char) (h : ¬ (pyStrip raw = []))
    (hh : _is_hash_header_line (stripKnownPrefix (pyStrip raw)) = Option.none) :
    _split_prefix_kind raw = classifyTrimmed (pyStrip raw) := by
  unfold _split_prefix_kind
  simp only [h, if_false, hh, ite_false]



theorem leak_not_space {c : Char} (h : leakChar c = true) : pyIsSpace c = false := by
  have h5 : c = '.' ∨ c = '-' ∨ c = 'x' ∨ c = 'X' ∨ c = '?' := by
    simpa [leakChar, or_assoc] using h
  rcases h5 with rfl | rfl | rfl | rfl | rfl <;> decide

theorem mem_lstrip {c : Char} {l : List Char} (h : c ∈ lstrip l) : c ∈ l :=
  (List.dropWhile_sublist _).mem h

theorem mem_rstrip {c : Char} {l : List Char} (h : c ∈ rstrip l) : c ∈ l := by
  unfold rstrip at h
  exact List.mem_reverse.mp ((List.dropWhile_sublist _).mem (List.mem_reverse.mp h))

theorem mem_pyStrip {c : Char} {l : List Char} (h : c ∈ pyStrip l) : c ∈ l :=
  mem_lstrip (mem_rstrip h)

theorem digit_not_space {c : Char} (h : c.isDigit = true) : pyIsSpace c = false := by
  unfold Char.isDigit at h
  simp only [Bool.and_eq_true, decide_eq_true_eq] at h
  unfold pyIsSpace
  have h1 : ¬ (c = ' ') := by rintro rfl; exact absurd h.1 (by decide)
  have h2 : ¬ (c = '\t') := by rintro rfl; exact absurd h.1 (by decide)
  have h3 : ¬ (c = '\n') := by rintro rfl; exact absurd h.1 (by decide)
  have h4 : ¬ (c = '\r') := by rintro rfl; exact absurd h.1 (by decide)
  have h5 : ¬ (c = '\x0b') := by rintro rfl; exact absurd h.1 (by decide)
  have h6 : ¬ (c = '\x0c') := by rintro rfl; exact absurd h.1 (by decide)
  simp [h1, h2, h3, h4, h5, h6]

theorem takeWhile_append_all {p : Char → Bool} {l : List Char} (x : Char) (m : List Char)
    (h : ∀ y ∈ l, p y = true) (hx : p x = false) :
    (l ++ x :: m).takeWhile p = l := by
  induction l with
  | nil => simp [List.takeWhile_cons, hx]
  | cons a t ih =>
    simp only [List.cons_append, List.takeWhile_cons, h a (by simp)]
    simp only [if_true]
    rw [ih (fun y hy => h y (by simp [hy]))]

theorem numGroup2_some {ds : List Char} (w : Char) (t : List Char)
    (hds : ¬ (ds = [])) (hdig : ds.all Char.isDigit = true) (hw : pyIsSpace w = true) :
    numGroup2 (ds ++ '.' :: w :: t)
      = some (((w :: t).dropWhile pyIsSpace).takeWhile (fun c => !(c = '\n'))) := by
  obtain ⟨d0, ds', rfl⟩ : ∃ d0 ds', ds = d0 :: ds' := by
    cases ds with
    | nil => exact absurd rfl hds
    | cons a b => exact ⟨a, b, rfl⟩
  have hall := List.all_eq_true.mp hdig
  have hd0 : pyIsSpace d0 = false := digit_not_space (hall d0 (by simp))
  have h1 : ((d0 :: ds') ++ '.' :: w :: t).dropWhile pyIsSpace = (d0 :: ds') ++ '.' :: w :: t := by
    simp [List.dropWhile_cons, hd0]
  have h2 : ((d0 :: ds') ++ '.' :: w :: t).takeWhile Char.isDigit = d0 :: ds' :=
    takeWhile_append_all '.' (w :: t) (fun y hy => hall y hy) (by decide)
  simp only [numGroup2, h1, h2, hds, if_false, List.drop_left (d0 :: ds'), hw, if_true]

theorem numGroup2_digit_space {d : Char} (u : List Char) (hd : d.isDigit = true) :
    numGroup2 (d :: ' ' :: u) = Option.none := by
  have h1 : (d :: ' ' :: u).dropWhile pyIsSpace = d :: ' ' :: u := by
    simp [List.dropWhile_cons, digit_not_space hd]
  have h2 : (d :: ' ' :: u).takeWhile Char.isDigit = [d] := by
    simp [List.takeWhile_cons, hd]
  simp only [numGroup2, h1, h2]
  simp

theorem hash_header_of_strip {r : List Char} (hr : ¬ (pyStrip r = []))
    (hnl : ∀ c ∈ r, ¬ (c = '\n')) :
    _is_hash_header_line ('#' :: rstrip r) = some (pyStrip r) := by
  have h0 : ('#' :: rstrip r).dropWhile pyIsSpace = '#' :: rstrip r := by
    simp [List.dropWhile_cons, (by decide : pyIsSpace '#' = false)]
  have hbody : (rstrip r).dropWhile pyIsSpace = pyStrip r := by
    show lstrip (rstrip r) = pyStrip r
    rw [lstrip_rstrip]
    rfl
  have hall : ∀ c ∈ pyStrip r, (!(decide (c = '\n'))) = true := by
    intro c hc
    simp [hnl c (mem_pyStrip hc)]
  have hg1 : (pyStrip r).takeWhile (fun c => !(c = '\n')) = pyStrip r :=
    List.takeWhile_eq_self_iff.mpr hall
  simp only [_is_hash_header_line, h0, hbody, hg1, List.drop_length, List.all_nil, hr,
    pyStrip_idem]
  simp [hr]


theorem dropWhile_cons_self_head {p : Char → Bool} {c : Char} {m : List Char}
    (h : (c :: m).dropWhile p = c :: m) : p c = false := by
  by_cases hp : p c = true
  · rw [List.dropWhile_cons, if_pos hp] at h
    have hle : (m.dropWhile p).length ≤ m.length := (List.dropWhile_sublist _).length_le
    rw [h] at hle
    simp at hle
  · simpa using hp

theorem dropWhile_head_false {p : Char → Bool} {l : List Char} {c : Char} {m : List Char}
    (h : l.dropWhile p = c :: m) : p c = false := by
  induction l with
  | nil => simp at h
  | cons a t ih =>
    rw [List.dropWhile_cons] at h
    by_cases hp : p a = true
    · rw [if_pos hp] at h
      exact ih h
    · rw [if_neg hp] at h
      injection h with h1 h2
      subst h1
      simpa using hp

theorem stripped_lstrip {l : List Char} (h : pyStrip l = l) : lstrip l = l := by
  have hs : List.Sublist (lstrip l) l := List.dropWhile_sublist _
  apply hs.eq_of_length
  have h1 : (pyStrip l).length ≤ (lstrip l).length := by
    unfold pyStrip rstrip
    calc ((lstrip l).reverse.dropWhile pyIsSpace).reverse.length
        = ((lstrip l).reverse.dropWhile pyIsSpace).length := by simp
      _ ≤ (lstrip l).reverse.length := (List.dropWhile_sublist _).length_le
      _ = (lstrip l).length := by simp
  have h2 : (lstrip l).length ≤ l.length := hs.length_le
  rw [h] at h1
  omega

theorem stripped_rstrip {l : List Char} (h : pyStrip l = l) : rstrip l = l := by
  have h1 := stripped_lstrip h
  unfold pyStrip at h
  rw [h1] at h
  exact h

theorem rstrip_last_not_space {l : List Char} {c : Char} {m : List Char}
    (h : rstrip l = l) (hrev : l.reverse = c :: m) : pyIsSpace c = false := by
  have hdw : l.reverse.dropWhile pyIsSpace = l.reverse := by
    have h2 := congrArg List.reverse h
    simpa [rstrip] using h2
  rw [hrev] at hdw
  exact dropWhile_cons_self_head hdw


theorem foldl_preserve {α σ : Type} {P : σ → Prop} {f : σ → α → σ} {l : List α} {s : σ}
    (hstep : ∀ s a, a ∈ l → P s → P (f s a)) (h : P s) : P (l.foldl f s) := by
  induction l generalizing s with
  | nil => exact h
  | cons a t ih =>
    exact ih (fun s' b hb hP => hstep s' b (by simp [hb]) hP) (hstep s a (by simp) h)

theorem add_noSec {st : RState} {title : List Char} {f : Topic → Topic}
    (h : NoSec st) : NoSec (st.add title f) := by
  obtain ⟨h1, h2⟩ := h
  unfold RState.add
  rw [h2]
  exact ⟨h1, rfl⟩

theorem routeTask_noSec {title : List Char} {st : RState} {task : Task}
    (h : NoSec st) : NoSec (routeTask title st task) := by
  unfold routeTask
  split
  · exact h
  · exact add_noSec h

theorem routeQuestion_noSec {title : List Char} {st : RState} {q : List Char}
    (h : NoSec st) : NoSec (routeQuestion title st q) := by
  unfold routeQuestion
  by_cases hc : stripKnownPrefix q = []
  · simpa [hc] using h
  · simpa [hc] using add_noSec h

theorem routeNote_noSec {title : List Char} {st : RState} {raw : List Char}
    (hraw : notHashNote raw = true) (h : NoSec st) : NoSec (routeNote title st raw) := by
  unfold routeNote
  have hk : ¬ ((_split_prefix_kind raw).1 = Kind.hash) := by
    intro he
    unfold notHashNote at hraw
    rw [he] at hraw
    simp at hraw
  rw [if_neg hk]
  split
  · exact h
  · split <;> exact add_noSec h

theorem routeTopic_noSec {st : RState} {t : Topic}
    (hn : t.notes.all notHashNote = true) (h : NoSec st) : NoSec (routeTopic st t) := by
  unfold routeTopic
  apply foldl_preserve (fun s raw hmem hP => routeNote_noSec (List.all_eq_true.mp hn raw hmem) hP)
  apply foldl_preserve (fun s q _ hP => routeQuestion_noSec hP)
  exact foldl_preserve (fun s a _ hP => routeTask_noSec hP) h

theorem buildSections_hashFree {ts : List Topic} (h : hashFree ts = true) :
    ∃ bs, buildSections ts = [⟨fallbackTitle, bs⟩] := by
  have hst : NoSec (ts.foldl routeTopic ⟨[], none, []⟩) :=
    foldl_preserve
      (fun s t hmem hP => routeTopic_noSec (List.all_eq_true.mp h t hmem) hP) ⟨rfl, rfl⟩
  obtain ⟨h1, h2⟩ := hst
  by_cases hc : _section_has_content
      ⟨fallbackTitle, (ts.foldl routeTopic ⟨[], none, []⟩).pending⟩ = true
  · exact ⟨(ts.foldl routeTopic ⟨[], none, []⟩).pending, by
      simp only [buildSections, h1, h2]
      simp [hc]⟩
  · exact ⟨[], by
      simp only [buildSections, h1, h2]
      simp [hc]⟩

theorem filter_fallback_spec (secs : List Entry) :
    ¬ ((if (secs.filter _section_has_content).isEmpty then [(⟨fallbackTitle, []⟩ : Entry)]
        else secs.filter _section_has_content) = [])
    ∧ ((∀ e ∈ (if (secs.filter _section_has_content).isEmpty then [(⟨fallbackTitle, []⟩ : Entry)]
          else secs.filter _section_has_content), _section_has_content e = true)
        ∨ (if (secs.filter _section_has_content).isEmpty then [(⟨fallbackTitle, []⟩ : Entry)]
          else secs.filter _section_has_content) = [⟨fallbackTitle, []⟩]) := by
  by_cases hk : (secs.filter _section_has_content).isEmpty
  · simp [hk]
  · simp only [hk, if_false]
    refine ⟨by simpa [List.isEmpty_iff] using hk, Or.inl ?_⟩
    intro e he
    exact List.of_mem_filter he

theorem buildSections_ne_nil (ts : List Topic) : ¬ (buildSections ts = []) :=
  (filter_fallback_spec _).1

theorem buildSections_content (ts : List Topic) :
    (∀ e ∈ buildSections ts, _section_has_content e = true)
      ∨ buildSections ts = [⟨fallbackTitle, []⟩] :=
  (filter_fallback_spec _).2


theorem renderTask_shape {a : Task} {b : Block} (h : renderTask a = some b) :
    b = Block.to_do (pyStrip a.text) a.done := by
  unfold renderTask at h
  by_cases hc : pyStrip a.text = []
  · simp [hc] at h
  · simp [hc] at h
    exact h.symm

theorem renderNote_shape {n : List Char} {b : Block} (h : renderNote n = some b) :
    (∃ s, b = Block.numbered_list_item s) ∨ (∃ s, b = Block.bulleted_list_item s) := by
  unfold renderNote at h
  by_cases hc : pyStrip n = []
  · simp [hc] at h
  · cases hm : numGroup2 (pyStrip n) with
    | some g2 =>
      by_cases hg : pyStrip g2 = []
      · simp [hc, hm, hg] at h
      · simp [hc, hm, hg] at h
        exact Or.inl ⟨_, h.symm⟩
    | none =>
      simp [hc, hm] at h
      exact Or.inr ⟨_, h.symm⟩

theorem renderQuestion_shape {q : List Char} {b : Block} (h : renderQuestion q = some b) :
    ∃ s, b = Block.bulleted_list_item s := by
  unfold renderQuestion at h
  by_cases hc : pyStrip q = []
  · simp [hc] at h
  · simp [hc] at h
    exact ⟨_, h.symm⟩

theorem renderTopic_mem {t : Topic} {b : Block} (hb : b ∈ renderTopic t) :
    (∃ s, b = Block.heading_3 s) ∨ (∃ s d, b = Block.to_do s d)
      ∨ (∃ s, b = Block.numbered_list_item s) ∨ (∃ s, b = Block.bulleted_list_item s) := by
  simp only [renderTopic, List.mem_cons, List.mem_append] at hb
  rcases hb with rfl | (hb | hb) | hb
  · exact Or.inl ⟨_, rfl⟩
  · obtain ⟨a, -, ha⟩ := List.mem_filterMap.mp hb
    exact Or.inr (Or.inl ⟨_, _, renderTask_shape ha⟩)
  · obtain ⟨a, -, ha⟩ := List.mem_filterMap.mp hb
    rcases renderNote_shape ha with ⟨s, rfl⟩ | ⟨s, rfl⟩
    · exact Or.inr (Or.inr (Or.inl ⟨_, rfl⟩))
    · exact Or.inr (Or.inr (Or.inr ⟨_, rfl⟩))
  · obtain ⟨a, -, ha⟩ := List.mem_filterMap.mp hb
    obtain ⟨s, rfl⟩ := renderQuestion_shape ha
    exact Or.inr (Or.inr (Or.inr ⟨_, rfl⟩))

theorem renderTopic_countP_zero {p : Block → Bool} (t : Topic)
    (h3 : ∀ s, p (Block.heading_3 s) = false)
    (htd : ∀ s d, p (Block.to_do s d) = false)
    (hnu : ∀ s, p (Block.numbered_list_item s) = false)
    (hbu : ∀ s, p (Block.bulleted_list_item s) = false) :
    (renderTopic t).countP p = 0 := by
  rw [List.countP_eq_zero]
  intro b hb
  rcases renderTopic_mem hb with ⟨s, rfl⟩ | ⟨s, d, rfl⟩ | ⟨s, rfl⟩ | ⟨s, rfl⟩ <;>
    simp [h3, htd, hnu, hbu]

theorem countP_flatten_zero {p : Block → Bool} {ls : List (List Block)}
    (h : ∀ l ∈ ls, l.countP p = 0) : ls.flatten.countP p = 0 := by
  rw [List.countP_eq_zero]
  intro b hb
  obtain ⟨l, hl, hbl⟩ := List.mem_flatten.mp hb
  exact (List.countP_eq_zero.mp (h l hl)) b hbl

theorem topics_countP_zero {p : Block → Bool} (topics : List Topic)
    (h3 : ∀ s, p (Block.heading_3 s) = false)
    (htd : ∀ s d, p (Block.to_do s d) = false)
    (hnu : ∀ s, p (Block.numbered_list_item s) = false)
    (hbu : ∀ s, p (Block.bulleted_list_item s) = false) :
    ((topics.map renderTopic).flatten).countP p = 0 := by
  apply countP_flatten_zero
  intro l hl
  obtain ⟨t, -, rfl⟩ := List.mem_map.mp hl
  exact renderTopic_countP_zero t h3 htd hnu hbu

theorem countH2_renderEntry (f : List Char) (img : Option (List Char)) (now : List Char)
    (b : Bool) (e : Entry) : (renderEntry f img now b e).countP isHeading2 = 1 := by
  unfold renderEntry
  rw [List.countP_cons]
  have h1 : (if b then [sourceBlock f img] else []).countP isHeading2 = 0 := by
    cases b
    · simp
    · cases img <;> simp [sourceBlock, isHeading2]
  rw [List.countP_append, h1, List.countP_cons]
  have h2 := topics_countP_zero (p := isHeading2) e.topics
    (fun s => rfl) (fun s d => rfl) (fun s => rfl) (fun s => rfl)
  rw [h2]
  rfl

theorem countH2_rest (f : List Char) (img : Option (List Char)) (now : List Char)
    (rest : List Entry) :
    ((rest.map (renderEntry f img now false)).flatten).countP isHeading2 = rest.length := by
  induction rest with
  | nil => rfl
  | cons e r ih =>
    simp only [List.map_cons, List.flatten_cons, List.countP_append, ih,
      countH2_renderEntry, List.length_cons]
    omega


theorem renderEntry_false_countP_zero {p : Block → Bool} (f : List Char)
    (img : Option (List Char)) (now : List Char) (e : Entry)
    (hh2 : ∀ a b, p (Block.heading_2 a b) = false) (hdv : p Block.divider = false)
    (h3 : ∀ s, p (Block.heading_3 s) = false)
    (htd : ∀ s d, p (Block.to_do s d) = false)
    (hnu : ∀ s, p (Block.numbered_list_item s) = false)
    (hbu : ∀ s, p (Block.bulleted_list_item s) = false) :
    (renderEntry f img now false e).countP p = 0 := by
  rw [show renderEntry f img now false e
      = Block.heading_2 now (emdashTitle e.title) :: Block.divider
        :: (e.topics.map renderTopic).flatten from rfl]
  rw [List.countP_cons, List.countP_cons, topics_countP_zero e.topics h3 htd hnu hbu]
  simp [hh2, hdv]

theorem rest_countP_zero {p : Block → Bool} (f : List Char)
    (img : Option (List Char)) (now : List Char) (rest : List Entry)
    (hh2 : ∀ a b, p (Block.heading_2 a b) = false) (hdv : p Block.divider = false)
    (h3 : ∀ s, p (Block.heading_3 s) = false)
    (htd : ∀ s d, p (Block.to_do s d) = false)
    (hnu : ∀ s, p (Block.numbered_list_item s) = false)
    (hbu : ∀ s, p (Block.bulleted_list_item s) = false) :
    ((rest.map (renderEntry f img now false)).flatten).countP p = 0 := by
  apply countP_flatten_zero
  intro l hl
  obtain ⟨t, -, rfl⟩ := List.mem_map.mp hl
  exact renderEntry_false_countP_zero f img now t hh2 hdv h3 htd hnu hbu


theorem stripKnownPrefix_stripped (x : List Char) :
    pyStrip (stripKnownPrefix x) = stripKnownPrefix x := by
  unfold stripKnownPrefix
  rw [pyStrip_idem]

theorem qfix_stripped (x : List Char) :
    pyStrip (_question_fix (pyStrip x)) = _question_fix (pyStrip x) := by
  unfold _question_fix
  cases h : numGroup2 (pyStrip x) <;> simp [pyStrip_idem]

theorem hash_title_stripped {l ht : List Char} (h : _is_hash_header_line l = some ht) :
    pyStrip ht = ht := by
  unfold _is_hash_header_line at h
  split at h
  · dsimp only at h
    split at h
    · cases h
    · split at h
      · cases h
      · injection h with h1
        rw [← h1, pyStrip_idem]
  · cases h

theorem split_snd_stripped (raw : List Char) :
    pyStrip (_split_prefix_kind raw).2 = (_split_prefix_kind raw).2 := by
  by_cases h : pyStrip raw = []
  · have h0 : _split_prefix_kind raw = (Kind.note, []) := by
      unfold _split_prefix_kind
      simp [h]
    rw [h0]
    rfl
  · cases hh : _is_hash_header_line (stripKnownPrefix (pyStrip raw)) with
    | some ht =>
      have h0 : _split_prefix_kind raw = (Kind.hash, ht) := by
        unfold _split_prefix_kind
        simp [h, hh]
      rw [h0]
      exact hash_title_stripped hh
    | none =>
      rw [split_eq_classify raw h hh]
      obtain ⟨c, t, hct⟩ : ∃ c t, pyStrip raw = c :: t := by
        cases hc : pyStrip raw with
        | nil => exact absurd hc h
        | cons a b => exact ⟨a, b, rfl⟩
      rw [hct]
      simp only [classifyTrimmed]
      split_ifs with h1 h2 h3 h4 h5
      · exact pyStrip_idem _
      · exact pyStrip_idem _
      · exact qfix_stripped _
      · exact pyStrip_idem _
      · exact pyStrip_idem _
      · rw [← hct]
        exact pyStrip_idem raw

theorem numbered_text_ne_nil {note ds t : List Char} {w : Char} (hstr : pyStrip note = note)
    (hdec : note = ds ++ '.' :: w :: t) (hw : pyIsSpace w = true) :
    ¬ (pyStrip (((w :: t).dropWhile pyIsSpace).takeWhile (fun c => !(c = '\n'))) = []) := by
  have hrs : rstrip note = note := stripped_rstrip hstr
  have ht : ¬ (t = []) := by
    rintro rfl
    have hrev : note.reverse = w :: ('.' :: ds.reverse) := by
      rw [hdec, List.reverse_append]
      rfl
    have hlast := rstrip_last_not_space hrs hrev
    rw [hw] at hlast
    exact absurd hlast (by simp)
  obtain ⟨tc, tm, htrev⟩ : ∃ tc tm, t.reverse = tc :: tm := by
    cases htr : t.reverse with
    | nil => exact absurd (by simpa using htr) ht
    | cons a b => exact ⟨a, b, rfl⟩
  have htc : pyIsSpace tc = false := by
    have hrev : note.reverse = tc :: (tm ++ w :: '.' :: ds.reverse) := by
      rw [hdec, List.reverse_append,
        show ('.' :: w :: t).reverse = t.reverse ++ [w, '.'] by simp, htrev]
      simp
    exact rstrip_last_not_space hrs hrev
  have htcm : tc ∈ t := List.mem_reverse.mp (by rw [htrev]; simp)
  obtain ⟨c0, v', hv'⟩ : ∃ c0 v', (w :: t).dropWhile pyIsSpace = c0 :: v' := by
    cases hvv : (w :: t).dropWhile pyIsSpace with
    | nil =>
      rw [List.dropWhile_eq_nil_iff] at hvv
      rw [hvv tc (by simp [htcm])] at htc
      exact absurd htc (by simp)
    | cons a b => exact ⟨a, b, rfl⟩
  have hc0 : pyIsSpace c0 = false := dropWhile_head_false hv'
  have hc0n : ¬ (c0 = '\n') := by rintro rfl; exact absurd hc0 (by decide)
  have hcond : (!decide (c0 = '\n')) = true := by simp [hc0n]
  rw [hv', List.takeWhile_cons, if_pos hcond, pyStrip_eq_nil_iff]
  intro hcontra
  rw [List.all_cons, hc0] at hcontra
  simp at hcontra

theorem numGroup2_some_inv {s g2 : List Char} (hstr : pyStrip s = s)
    (h : numGroup2 s = some g2) :
    ∃ ds t, ∃ w : Char, s = ds ++ '.' :: w :: t ∧ pyIsSpace w = true
      ∧ g2 = ((w :: t).dropWhile pyIsSpace).takeWhile (fun c => !(c = '\n')) := by
  unfold numGroup2 at h
  rw [show s.dropWhile pyIsSpace = s from stripped_lstrip hstr] at h
  by_cases hds : s.takeWhile Char.isDigit = []
  · simp [hds] at h
  · simp only [hds, if_false] at h
    obtain ⟨rest, hrest⟩ := List.takeWhile_prefix (p := Char.isDigit) (l := s)
    have hdrop : s.drop (s.takeWhile Char.isDigit).length = rest := by
      nth_rewrite 2 [← hrest]
      exact List.drop_left _ _
    rw [hdrop] at h
    split at h
    · rename_i r
      cases r with
      | nil => cases h
      | cons d rtail =>
        dsimp only at h
        by_cases hwd : pyIsSpace d = true
        · rw [if_pos hwd] at h
          injection h with hg2
          exact ⟨s.takeWhile Char.isDigit, rtail, d, hrest.symm, hwd, hg2.symm⟩
        · rw [if_neg hwd] at h
          cases h
    · cases h

/-- Routing and rendering of a single topic holding one note, for every
non-marker classification outcome. -/
theorem build_single_note (title note text : List Char) (k : Kind) (f now : List Char)
    (img : Option (List Char)) (hk : _split_prefix_kind note = (k, text))
    (hknh : ¬ (k = Kind.hash)) (hne : ¬ (text = [])) (hstr : pyStrip text = text) :
    build_notion_blocks [⟨title, [], [note], []⟩] f img now
      = [Block.heading_2 now (emdashTitle fallbackTitle), sourceBlock f img, Block.divider,
         Block.heading_3 (topicTitleOf ⟨title, [], [note], []⟩)]
        ++ (match k with
            | Kind.task_open => [Block.to_do text false]
            | Kind.task_done => [Block.to_do text true]
            | Kind.question => [Block.bulleted_list_item ('❓' :: ' ' :: text)]
            | Kind.note => (renderNote text).toList
            | Kind.hash => []) := by
  cases k with
  | hash => exact absurd rfl hknh
  | task_open =>
    simp [build_notion_blocks, withDefaultTopics, buildSections, routeTopic, routeNote,
      RState.add, bucketUpd, freshBucket, hk, hne, _section_has_content, renderEntry,
      renderTopic, renderTask, hstr]
  | task_done =>
    simp [build_notion_blocks, withDefaultTopics, buildSections, routeTopic, routeNote,
      RState.add, bucketUpd, freshBucket, hk, hne, _section_has_content, renderEntry,
      renderTopic, renderTask, hstr]
  | question =>
    simp [build_notion_blocks, withDefaultTopics, buildSections, routeTopic, routeNote,
      RState.add, bucketUpd, freshBucket, hk, hne, _section_has_content, renderEntry,
      renderTopic, renderQuestion, hstr]
  | note =>
    cases hrn : renderNote text with
    | none =>
      exfalso
      unfold renderNote at hrn
      rw [hstr] at hrn
      simp only [hne, ite_false] at hrn
      cases hm : numGroup2 text with
      | some g2 =>
        rw [hm] at hrn
        by_cases hg : pyStrip g2 = []
        · obtain ⟨ds, t2, w, hdec, hw, hg2⟩ := numGroup2_some_inv hstr hm
          rw [hg2] at hg
          exact numbered_text_ne_nil hstr hdec hw hg
        · simp [hg] at hrn
      | none => simp [hm] at hrn
    | some b =>
      simp [build_notion_blocks, withDefaultTopics, buildSections, routeTopic, routeNote,
        RState.add, bucketUpd, freshBucket, hk, hne, _section_has_content, renderEntry,
        renderTopic, hrn]


theorem build_single_question (title rawq : List Char) (f now : List Char)
    (img : Option (List Char)) (hq : ¬ (stripKnownPrefix rawq = [])) :
    build_notion_blocks [⟨title, [], [], [rawq]⟩] f img now
      = [Block.heading_2 now (emdashTitle fallbackTitle), sourceBlock f img, Block.divider,
         Block.heading_3 (topicTitleOf ⟨title, [], [], [rawq]⟩),
         Block.bulleted_list_item ('❓' :: ' ' :: stripKnownPrefix rawq)] := by
  simp [build_notion_blocks, withDefaultTopics, buildSections, routeTopic, routeQuestion,
    RState.add, bucketUpd, freshBucket, hq, _section_has_content, renderEntry,
    renderTopic, renderQuestion, stripKnownPrefix_stripped]


/-! ## Claims -/

/-- C10: for every trimmed non-empty note line whose first character is `x`
or `X` and which is not detected as a section marker, the classifier
returns task-done with only that first character removed and the rest
trimmed, even with no following space (so "xylophone" classifies as a
completed task "ylophone"); the same no-space prefix consumption applies
to a leading `.` (task-open), `?` (question, with the numeric-dot
correction applied to the remainder) and `-` (note). -/
theorem C10_no_space_prefix_consumed (raw r : List Char)
    (hh : _is_hash_header_line (stripKnownPrefix (pyStrip raw)) = Option.none) :
    ((pyStrip raw = 'x' :: r ∨ pyStrip raw = 'X' :: r) →
      _split_prefix_kind raw = (Kind.task_done, pyStrip r))
    ∧ (pyStrip raw = '.' :: r → _split_prefix_kind raw = (Kind.task_open, pyStrip r))
    ∧ (pyStrip raw = '?' :: r →
        _split_prefix_kind raw = (Kind.question, _question_fix (pyStrip r)))
    ∧ (pyStrip raw = '-' :: r → _split_prefix_kind raw = (Kind.note, pyStrip r)) := by
  refine ⟨?_, ?_, ?_, ?_⟩
  · rintro (h | h) <;> rw [split_eq_classify raw (by rw [h]; simp) hh, h] <;>
      simp [classifyTrimmed, pyStrip_afterOneSpace]
  · intro h
    rw [split_eq_classify raw (by rw [h]; simp) hh, h]
    simp [classifyTrimmed, pyStrip_afterOneSpace]
  · intro h
    rw [split_eq_classify raw (by rw [h]; simp) hh, h]
    simp [classifyTrimmed, pyStrip_afterOneSpace]
  · intro h
    rw [split_eq_classify raw (by rw [h]; simp) hh, h]
    simp [classifyTrimmed, pyStrip_afterOneSpace]

/-- C10 witness: "xylophone" is classified as a completed task "ylophone". -/
theorem C10_no_space_prefix_consumed_witness :
    _split_prefix_kind (toL "xylophone") = (Kind.task_done, toL "ylophone") := by
  have h := (C10_no_space_prefix_consumed (toL "xylophone") (toL "ylophone") (by decide)).1 (Or.inl (by decide))
  exact h.trans (by decide)



/-- C2 counterexample: the claim says a leaked prefix "optionally followed
by a space" is stripped before section-marker detection, so "-#Title"
would be a section marker titled "Title"; the code's `_PREFIX_RE` demands
at least one whitespace character after the prefix, so "-#Title" is
classified as a note "#Title" instead. -/
theorem C2_counterexample :
    _split_prefix_kind (toL "-#Title") = (Kind.note, toL "#Title")
    ∧ ¬ (_split_prefix_kind (toL "-#Title") = (Kind.hash, toL "Title")) :=
  ⟨by decide, by decide⟩

/-- C8 counterexample: the claim says a remainder beginning with a numeric
prefix "2 " (digit followed only by a space) is stripped, so "? 2 foo"
would classify as the question "foo"; `_NUM_RE` requires a dot after the
digits, so the code returns "2 foo" with the digit kept. -/
theorem C8_counterexample :
    _split_prefix_kind (toL "? 2 foo") = (Kind.question, toL "2 foo")
    ∧ ¬ (_split_prefix_kind (toL "? 2 foo") = (Kind.question, toL "foo")) :=
  ⟨by decide, by decide⟩

/-- C2 (amended): if stripping one known leaked prefix — one of `.`, `-`,
`x`/`X`, `?` followed by at least one whitespace character (the code's
`_PREFIX_RE` requires the whitespace; the claim's "optionally followed by
a space" fails, see the counterexample) — leaves `#`, optional whitespace
and a non-empty title, the classifier returns section-marker with that
title, whatever other prefix classification the line would match. -/
theorem C2_hash_after_spaced_prefix (raw : List Char) (p w : Char) (u r : List Char)
    (hnl : ¬ ('\n' ∈ raw))
    (h : pyStrip raw = p :: w :: u)
    (hp : leakChar p = true) (hw : pyIsSpace w = true)
    (hu : lstrip u = '#' :: r) (hr : ¬ (pyStrip r = [])) :
    _split_prefix_kind raw = (Kind.hash, pyStrip r) := by
  have hpns : pyIsSpace p = false := leak_not_space hp
  have hsub : prefixSub (p :: w :: u) = '#' :: r := by
    have hd : (p :: w :: u).dropWhile pyIsSpace = p :: w :: u := by
      simp [List.dropWhile_cons, hpns]
    simp only [prefixSub, hd, hp, if_true, hw]
    show (w :: u).dropWhile pyIsSpace = '#' :: r
    rw [List.dropWhile_cons]
    simpa [hw] using hu
  have hmemr : ∀ c ∈ r, ¬ (c = '\n') := by
    intro c hc hcn
    subst hcn
    apply hnl
    apply mem_pyStrip (l := raw)
    rw [h]
    have h1 : '\n' ∈ lstrip u := by rw [hu]; simp [hc]
    simp [mem_lstrip h1]
  have hstrip89 : pyStrip ('#' :: r) = '#' :: rstrip r := by
    rw [show pyStrip ('#' :: r) = rstrip ('#' :: r) by
      unfold pyStrip; rw [lstrip_cons_of_nonspace r (by decide)]]
    rw [rstrip_cons]
    have hna : ¬ (r.all pyIsSpace = true) := fun hall => hr (pyStrip_eq_nil_iff.mpr hall)
    simp [hna]
  have hX : pyStrip (p :: w :: u) = p :: w :: u := by rw [← h, pyStrip_idem]
  have hskp : stripKnownPrefix (p :: w :: u) = '#' :: rstrip r := by
    unfold stripKnownPrefix
    rw [hX, hsub, hstrip89]
  have hhl : _is_hash_header_line (stripKnownPrefix (p :: w :: u)) = some (pyStrip r) := by
    rw [hskp]
    exact hash_header_of_strip hr hmemr
  unfold _split_prefix_kind
  simp only [h, hhl]
  simp

/-- C2 witness: "- #Title" — also a dashed note shape — is a section
marker titled "Title". -/
theorem C2_hash_after_spaced_prefix_witness :
    _split_prefix_kind (toL "- #Title") = (Kind.hash, toL "Title") := by
  have h := C2_hash_after_spaced_prefix (toL "- #Title") '-' ' ' (toL "#Title") (toL "Title")
    (by decide) (by decide) (by decide) (by decide) (by decide) (by decide)
  exact h.trans (by decide)


/-- C8 (amended): a trimmed line starting with `?` that is not a section
marker classifies as a question with the `?` and any single following
space consumed and the remainder trimmed; if the remainder begins with
digits, a dot and whitespace (`_NUM_RE`), that numeric-dot prefix is
stripped too (up to the first newline, trimmed); a bare digit-space
prefix such as "2 " is NOT stripped (the claim said it is, see the
counterexample). -/
theorem C8_question_numeric_dot (raw r : List Char)
    (hh : _is_hash_header_line (stripKnownPrefix (pyStrip raw)) = Option.none)
    (h : pyStrip raw = '?' :: r) :
    _split_prefix_kind raw = (Kind.question, _question_fix (pyStrip r))
    ∧ (∀ ds t, ∀ w : Char, pyStrip r = ds ++ '.' :: w :: t → ¬ (ds = []) →
        ds.all Char.isDigit = true → pyIsSpace w = true →
        _split_prefix_kind raw
          = (Kind.question,
              pyStrip (((w :: t).dropWhile pyIsSpace).takeWhile (fun c => !(c = '\n')))))
    ∧ (∀ u, ∀ d : Char, pyStrip r = d :: ' ' :: u → d.isDigit = true →
        _split_prefix_kind raw = (Kind.question, pyStrip r)) := by
  have hmain : _split_prefix_kind raw = (Kind.question, _question_fix (pyStrip r)) := by
    rw [split_eq_classify raw (by rw [h]; simp) hh, h]
    simp [classifyTrimmed, pyStrip_afterOneSpace]
  refine ⟨hmain, ?_, ?_⟩
  · intro ds t w hdec hds hdig hw
    rw [hmain, hdec]
    unfold _question_fix
    rw [numGroup2_some w t hds hdig hw]
  · intro u d hdec hd
    rw [hmain, hdec]
    unfold _question_fix
    rw [numGroup2_digit_space u hd]

/-- C8 witness: "? 2. Hva skjer?" classifies as the question "Hva skjer?". -/
theorem C8_question_numeric_dot_witness :
    _split_prefix_kind (toL "? 2. Hva skjer?") = (Kind.question, toL "Hva skjer?") := by
  have h := (C8_question_numeric_dot (toL "? 2. Hva skjer?") (toL " 2. Hva skjer?")
      (by decide) (by decide)).2.1 (toL "2") (toL "Hva skjer?") ' '
      (by decide) (by decide) (by decide) (by decide)
  exact h.trans (by decide)


/-- C6 (amended): for every (trimmed, as bucketed notes always are) note:
if it decomposes as digits, a dot and a whitespace character (`_NUM_RE`'s
pattern), it renders as a numbered-item whose text is the remainder after
the matched prefix, truncated at the first newline and trimmed — for
newline-free notes this is exactly the note with the numeric prefix
removed; every other non-empty note renders as a bullet-item with its
text unchanged.  (The claim's "the note with that numeric prefix removed"
fails when the note contains a newline, see the counterexample: `(.*)` in
`_NUM_RE` stops at the first newline.) -/
theorem C6_render (note : List Char) (hstr : pyStrip note = note) :
    (∀ ds t, ∀ w : Char, note = ds ++ '.' :: w :: t → ¬ (ds = []) →
        ds.all Char.isDigit = true → pyIsSpace w = true →
        renderNote note = some (Block.numbered_list_item
          (pyStrip (((w :: t).dropWhile pyIsSpace).takeWhile (fun c => !(c = '\n'))))))
    ∧ (numGroup2 note = Option.none → ¬ (note = []) →
        renderNote note = some (Block.bulleted_list_item note)) := by
  constructor
  · intro ds t w hdec hds hdig hw
    -- the text after the prefix is non-empty once trimmed
    have hrs : rstrip note = note := stripped_rstrip hstr
    have ht : ¬ (t = []) := by
      rintro rfl
      have hrev : note.reverse = w :: ('.' :: ds.reverse) := by
        rw [hdec]; simp
      have := rstrip_last_not_space hrs hrev
      rw [hw] at this
      exact absurd this (by simp)
    obtain ⟨tc, tm, htrev⟩ : ∃ tc tm, t.reverse = tc :: tm := by
      cases htr : t.reverse with
      | nil => exact absurd (by simpa using htr) ht
      | cons a b => exact ⟨a, b, rfl⟩
    have htc : pyIsSpace tc = false := by
      have hrev : note.reverse = tc :: (tm ++ w :: '.' :: ds.reverse) := by
        rw [hdec, List.reverse_append,
          show ('.' :: w :: t).reverse = t.reverse ++ [w, '.'] by simp, htrev]
        simp
      exact rstrip_last_not_space hrs hrev
    have htcm : tc ∈ t := List.mem_reverse.mp (by rw [htrev]; simp)
    have hv : ¬ ((w :: t).dropWhile pyIsSpace = []) := by
      intro hnil
      rw [List.dropWhile_eq_nil_iff] at hnil
      rw [hnil tc (by simp [htcm])] at htc
      exact absurd htc (by simp)
    obtain ⟨c0, v', hv'⟩ : ∃ c0 v', (w :: t).dropWhile pyIsSpace = c0 :: v' := by
      cases hvv : (w :: t).dropWhile pyIsSpace with
      | nil => exact absurd hvv hv
      | cons a b => exact ⟨a, b, rfl⟩
    have hc0 : pyIsSpace c0 = false := dropWhile_head_false hv'
    have hc0n : ¬ (c0 = '\n') := by rintro rfl; exact absurd hc0 (by decide)
    have hg2 : ((w :: t).dropWhile pyIsSpace).takeWhile (fun c => !(c = '\n'))
        = c0 :: v'.takeWhile (fun c => !(c = '\n')) := by
      rw [hv', List.takeWhile_cons]
      simp [hc0n]
    have htext : ¬ (pyStrip (((w :: t).dropWhile pyIsSpace).takeWhile (fun c => !(c = '\n'))) = []) := by
      rw [hg2, pyStrip_eq_nil_iff]
      intro hall
      rw [List.all_cons, hc0] at hall
      simp at hall
    have hnum := numGroup2_some w t hds hdig hw
    rw [← hdec] at hnum
    have hne : ¬ (note = []) := by rw [hdec]; simp
    simp only [renderNote, hstr, hnum, htext, hne]
    simp
  · intro hnum hne
    simp [renderNote, hstr, hnum, hne]

/-- C6 witness: "1. en" renders as numbered item "en"; "vanlig note" as a
bullet item, text unchanged. -/
theorem C6_render_witness :
    renderNote (toL "1. en") = some (Block.numbered_list_item (toL "en"))
    ∧ renderNote (toL "vanlig note") = some (Block.bulleted_list_item (toL "vanlig note")) := by
  constructor
  · have h := (C6_render (toL "1. en") (by decide)).1 (toL "1") (toL "en") ' '
      (by decide) (by decide) (by decide) (by decide)
    exact h.trans (by decide)
  · exact (C6_render (toL "vanlig note") (by decide)).2 (by decide) (by decide)

/-- C6 counterexample: the bucketed note "1. a\nb" matches `^\d+\.\s+`,
and the claim says its numbered-item text is the note with the prefix
removed, i.e. "a\nb"; the code renders "a" — `(.*)` does not cross the
newline. -/
theorem C6_counterexample :
    build_notion_blocks [⟨toL "T", [], [toL "1. a\nb"], []⟩] (toL "f") Option.none (toL "NOW")
      = [Block.heading_2 (toL "NOW") (toL " — Handwritten notes"),
         Block.paragraph (toL "Source: f"), Block.divider, Block.heading_3 (toL "T"),
         Block.numbered_list_item (toL "a")]
    ∧ ¬ (toL "a" = toL "a\nb") :=
  ⟨by decide, by decide⟩


/-- C4: every rendered section has content, except the single empty
fallback section; the section list is never empty; with no section-marker
note anywhere, it is exactly one section with the fallback title; and the
rendered output has exactly one `heading_2` per section. -/
theorem C4_sections_invariant (topics : List Topic) (f now : List Char)
    (img : Option (List Char)) :
    ¬ (buildSections (withDefaultTopics topics) = [])
    ∧ ((∀ e ∈ buildSections (withDefaultTopics topics), _section_has_content e = true)
        ∨ buildSections (withDefaultTopics topics) = [⟨fallbackTitle, []⟩])
    ∧ (hashFree (withDefaultTopics topics) = true →
        ∃ bs, buildSections (withDefaultTopics topics) = [⟨fallbackTitle, bs⟩])
    ∧ (build_notion_blocks topics f img now).countP isHeading2
        = (buildSections (withDefaultTopics topics)).length := by
  refine ⟨buildSections_ne_nil _, buildSections_content _,
    fun h => buildSections_hashFree h, ?_⟩
  obtain ⟨e, rest, hsecs⟩ : ∃ e rest,
      buildSections (withDefaultTopics topics) = e :: rest := by
    cases hs : buildSections (withDefaultTopics topics) with
    | nil => exact absurd hs (buildSections_ne_nil _)
    | cons a b => exact ⟨a, b, rfl⟩
  simp only [build_notion_blocks, hsecs]
  rw [List.countP_append, countH2_renderEntry, countH2_rest]
  simp only [List.length_cons]
  omega

/-- C4 witness: with no topics at all there are no section markers, and the
output is a single fallback-titled section. -/
theorem C4_sections_invariant_witness :
    ∃ bs, buildSections (withDefaultTopics []) = [⟨fallbackTitle, bs⟩] :=
  (C4_sections_invariant [] (toL "f") (toL "NOW") Option.none).2.2.1 (by decide)

/-- C7: the single source block (image with "Source image: <filename>"
caption when an upload id is given, else the "Source: <filename>"
paragraph) sits between the first section's heading and the first divider,
and no image block or source paragraph appears anywhere else: over the
whole output there is exactly one image block and no source paragraph when
a handle is supplied, and exactly one source paragraph and no image block
when not. -/
theorem C7_source_exclusivity (topics : List Topic) (f now : List Char)
    (img : Option (List Char)) :
    ∃ t0 rest, build_notion_blocks topics f img now
        = Block.heading_2 now t0 :: sourceBlock f img :: Block.divider :: rest
      ∧ rest.countP isImageBlock = 0
      ∧ rest.countP (isSourceParagraph f) = 0
      ∧ (build_notion_blocks topics f img now).countP isImageBlock
          = (if img.isSome then 1 else 0)
      ∧ (build_notion_blocks topics f img now).countP (isSourceParagraph f)
          = (if img.isSome then 0 else 1) := by
  obtain ⟨e, rest0, hsecs⟩ : ∃ e rest,
      buildSections (withDefaultTopics topics) = e :: rest := by
    cases hs : buildSections (withDefaultTopics topics) with
    | nil => exact absurd hs (buildSections_ne_nil _)
    | cons a b => exact ⟨a, b, rfl⟩
  have hbuild : build_notion_blocks topics f img now
      = Block.heading_2 now (emdashTitle e.title) :: sourceBlock f img :: Block.divider
        :: ((e.topics.map renderTopic).flatten
            ++ (rest0.map (renderEntry f img now false)).flatten) := by
    simp only [build_notion_blocks, hsecs, renderEntry, if_true]
    simp
  have himg_rest : ((e.topics.map renderTopic).flatten
      ++ (rest0.map (renderEntry f img now false)).flatten).countP isImageBlock = 0 := by
    rw [List.countP_append,
      topics_countP_zero e.topics (fun s => rfl) (fun s d => rfl) (fun s => rfl) (fun s => rfl),
      rest_countP_zero f img now rest0 (fun a b => rfl) rfl (fun s => rfl) (fun s d => rfl)
        (fun s => rfl) (fun s => rfl)]
  have hsp_rest : ((e.topics.map renderTopic).flatten
      ++ (rest0.map (renderEntry f img now false)).flatten).countP (isSourceParagraph f) = 0 := by
    rw [List.countP_append,
      topics_countP_zero e.topics (fun s => by simp [isSourceParagraph])
        (fun s d => by simp [isSourceParagraph]) (fun s => by simp [isSourceParagraph])
        (fun s => by simp [isSourceParagraph]),
      rest_countP_zero f img now rest0 (fun a b => by simp [isSourceParagraph])
        (by simp [isSourceParagraph]) (fun s => by simp [isSourceParagraph])
        (fun s d => by simp [isSourceParagraph]) (fun s => by simp [isSourceParagraph])
        (fun s => by simp [isSourceParagraph])]
  refine ⟨emdashTitle e.title, _, hbuild, himg_rest, hsp_rest, ?_, ?_⟩
  · rw [hbuild]
    rw [List.countP_cons, List.countP_cons, List.countP_cons, himg_rest]
    cases img <;> simp [sourceBlock, isImageBlock, isHeading2]
  · rw [hbuild]
    rw [List.countP_cons, List.countP_cons, List.countP_cons, hsp_rest]
    cases img <;> simp [sourceBlock, isSourceParagraph]

/-- C7 witness: concrete checks of the counts in both attachment modes. -/
theorem C7_source_exclusivity_witness :
    (build_notion_blocks [] (toL "f.png") (some (toL "U1")) (toL "NOW")).countP isImageBlock = 1
    ∧ (build_notion_blocks [] (toL "f.png") Option.none (toL "NOW")).countP
        (isSourceParagraph (toL "f.png")) = 1 := by
  constructor
  · obtain ⟨t0, rest, -, -, -, h4, -⟩ :=
      C7_source_exclusivity [] (toL "f.png") (toL "NOW") (some (toL "U1"))
    simpa using h4
  · obtain ⟨t0, rest, -, -, -, -, h5⟩ :=
      C7_source_exclusivity [] (toL "f.png") (toL "NOW") Option.none
    simpa using h5


/-- C9: a note line beginning with ". " or a bullet glyph (and non-empty,
not a section marker) produces a checklist item with checked = false; one
beginning with "x " or "X " produces a checklist item with checked = true. -/
theorem C9_checklist_items (title note r : List Char) (c : Char) (f now : List Char)
    (img : Option (List Char))
    (hh : _is_hash_header_line (stripKnownPrefix (pyStrip note)) = Option.none)
    (hne : ¬ (pyStrip r = [])) :
    (pyStrip note = '.' :: ' ' :: r →
      build_notion_blocks [⟨title, [], [note], []⟩] f img now
        = [Block.heading_2 now (emdashTitle fallbackTitle), sourceBlock f img, Block.divider,
           Block.heading_3 (topicTitleOf ⟨title, [], [note], []⟩),
           Block.to_do (pyStrip r) false])
    ∧ (bulletChar c = true → pyStrip note = c :: r →
      build_notion_blocks [⟨title, [], [note], []⟩] f img now
        = [Block.heading_2 now (emdashTitle fallbackTitle), sourceBlock f img, Block.divider,
           Block.heading_3 (topicTitleOf ⟨title, [], [note], []⟩),
           Block.to_do (pyStrip r) false])
    ∧ (pyStrip note = 'x' :: ' ' :: r →
      build_notion_blocks [⟨title, [], [note], []⟩] f img now
        = [Block.heading_2 now (emdashTitle fallbackTitle), sourceBlock f img, Block.divider,
           Block.heading_3 (topicTitleOf ⟨title, [], [note], []⟩),
           Block.to_do (pyStrip r) true])
    ∧ (pyStrip note = 'X' :: ' ' :: r →
      build_notion_blocks [⟨title, [], [note], []⟩] f img now
        = [Block.heading_2 now (emdashTitle fallbackTitle), sourceBlock f img, Block.divider,
           Block.heading_3 (topicTitleOf ⟨title, [], [note], []⟩),
           Block.to_do (pyStrip r) true]) := by
  refine ⟨?_, ?_, ?_, ?_⟩
  · intro h
    have hk : _split_prefix_kind note = (Kind.task_open, pyStrip r) := by
      rw [split_eq_classify note (by rw [h]; simp) hh, h]
      simp [classifyTrimmed, afterOneSpace]
    have hb := build_single_note title note (pyStrip r) Kind.task_open f now img hk
      (by decide) hne (pyStrip_idem r)
    simpa using hb
  · intro hc h
    have hk : _split_prefix_kind note = (Kind.task_open, pyStrip r) := by
      rw [split_eq_classify note (by rw [h]; simp) hh, h]
      exact classify_bullet r hc
    have hb := build_single_note title note (pyStrip r) Kind.task_open f now img hk
      (by decide) hne (pyStrip_idem r)
    simpa using hb
  · intro h
    have hk : _split_prefix_kind note = (Kind.task_done, pyStrip r) := by
      rw [split_eq_classify note (by rw [h]; simp) hh, h]
      simp [classifyTrimmed, afterOneSpace]
    have hb := build_single_note title note (pyStrip r) Kind.task_done f now img hk
      (by decide) hne (pyStrip_idem r)
    simpa using hb
  · intro h
    have hk : _split_prefix_kind note = (Kind.task_done, pyStrip r) := by
      rw [split_eq_classify note (by rw [h]; simp) hh, h]
      simp [classifyTrimmed, afterOneSpace]
    have hb := build_single_note title note (pyStrip r) Kind.task_done f now img hk
      (by decide) hne (pyStrip_idem r)
    simpa using hb

/-- C9 witness: ". buy milk" renders as an unchecked checklist item,
"X done thing" as a checked one. -/
theorem C9_checklist_items_witness :
    build_notion_blocks [⟨toL "T", [], [toL ". buy milk"], []⟩] (toL "f") Option.none (toL "NOW")
      = [Block.heading_2 (toL "NOW") (toL " — Handwritten notes"),
         Block.paragraph (toL "Source: f"), Block.divider, Block.heading_3 (toL "T"),
         Block.to_do (toL "buy milk") false]
    ∧ build_notion_blocks [⟨toL "T", [], [toL "X done thing"], []⟩] (toL "f") Option.none (toL "NOW")
      = [Block.heading_2 (toL "NOW") (toL " — Handwritten notes"),
         Block.paragraph (toL "Source: f"), Block.divider, Block.heading_3 (toL "T"),
         Block.to_do (toL "done thing") true] := by
  constructor
  · have h := (C9_checklist_items (toL "T") (toL ". buy milk") (toL "buy milk") '•'
      (toL "f") (toL "NOW") Option.none (by decide) (by decide)).1 (by decide)
    exact h.trans (by decide)
  · have h := (C9_checklist_items (toL "T") (toL "X done thing") (toL "done thing") '•'
      (toL "f") (toL "NOW") Option.none (by decide) (by decide)).2.2.2 (by decide)
    exact h.trans (by decide)

/-- C3 (amended): every emitted question block is a bullet item whose text
is the glyph, a space, and the bucketed question text: for a trusted
question the text after one `strip_known_prefix` pass, for a
question-classified note the classifier's cleaned text.  (The claim's
"never begins with a leaked `?` prefix or a numeric prefix" fails for
trusted questions: only one prefix-plus-whitespace occurrence is stripped,
so "?foo" or "2. foo" keep their prefixes — see the counterexample.) -/
theorem C3_question_rendering (title rawq n qt : List Char) (f now : List Char)
    (img : Option (List Char)) :
    (¬ (stripKnownPrefix rawq = []) →
      build_notion_blocks [⟨title, [], [], [rawq]⟩] f img now
        = [Block.heading_2 now (emdashTitle fallbackTitle), sourceBlock f img, Block.divider,
           Block.heading_3 (topicTitleOf ⟨title, [], [], [rawq]⟩),
           Block.bulleted_list_item ('❓' :: ' ' :: stripKnownPrefix rawq)])
    ∧ (_split_prefix_kind n = (Kind.question, qt) → ¬ (qt = []) →
      build_notion_blocks [⟨title, [], [n], []⟩] f img now
        = [Block.heading_2 now (emdashTitle fallbackTitle), sourceBlock f img, Block.divider,
           Block.heading_3 (topicTitleOf ⟨title, [], [n], []⟩),
           Block.bulleted_list_item ('❓' :: ' ' :: qt)]) := by
  constructor
  · intro hq
    exact build_single_question title rawq f now img hq
  · intro hk hqt
    have hstr : pyStrip qt = qt := by
      have h2 := split_snd_stripped n
      rw [hk] at h2
      exact h2
    have hb := build_single_note title n qt Kind.question f now img hk (by decide) hqt hstr
    simpa using hb

/-- C3 counterexample: a trusted question "?foo" is rendered as
"❓ ?foo" — after the glyph and space the text still begins with the
leaked `?` (only a `?` followed by whitespace is stripped). -/
theorem C3_counterexample :
    build_notion_blocks [⟨toL "T", [], [], [toL "?foo"]⟩] (toL "f") Option.none (toL "NOW")
      = [Block.heading_2 (toL "NOW") (toL " — Handwritten notes"),
         Block.paragraph (toL "Source: f"), Block.divider, Block.heading_3 (toL "T"),
         Block.bulleted_list_item (toL "❓ ?foo")]
    ∧ (toL "❓ ?foo").drop 2 = '?' :: toL "foo" :=
  ⟨by decide, by decide⟩

/-- C3 witness: the trusted question "? et spørsmål" renders as
"❓ et spørsmål". -/
theorem C3_question_rendering_witness :
    build_notion_blocks [⟨toL "T", [], [], [toL "? et spørsmål"]⟩] (toL "f") Option.none (toL "NOW")
      = [Block.heading_2 (toL "NOW") (toL " — Handwritten notes"),
         Block.paragraph (toL "Source: f"), Block.divider, Block.heading_3 (toL "T"),
         Block.bulleted_list_item (toL "❓ et spørsmål")] := by
  have h := (C3_question_rendering (toL "T") (toL "? et spørsmål") (toL "x") (toL "x")
    (toL "f") (toL "NOW") Option.none).1 (by decide)
  exact h.trans (by decide)


end NotionFormat

namespace NotionFormat

theorem okBind {α β : Type} (a : α) (f : α → PyM β) :
    (Except.ok a >>= f : PyM β) = f a := rfl

theorem pureBind {α β : Type} (a : α) (f : α → PyM β) :
    ((pure a : PyM α) >>= f) = f a := rfl

theorem pureEqOk {α : Type} (a : α) : (pure a : PyM α) = Except.ok a := rfl

theorem pyStrip_nil : pyStrip [] = [] := rfl

theorem foldlM_ok_id {σ α : Type} {f : σ → α → PyM σ} {l : List α} {s : σ}
    (h : ∀ a ∈ l, f s a = Except.ok s) : l.foldlM f s = Except.ok s := by
  induction l with
  | nil => rfl
  | cons a t ih =>
    rw [List.foldlM_cons, h a (by simp), okBind]
    exact ih (fun b hb => h b (by simp [hb]))

theorem foldl_fixed {σ α : Type} {f : σ → α → σ} {l : List α} {s : σ}
    (h : ∀ s' a, a ∈ l → f s' a = s') : l.foldl f s = s := by
  induction l generalizing s with
  | nil => rfl
  | cons a t ih =>
    rw [List.foldl_cons, h s a (by simp)]
    exact ih (fun s' b hb => h s' b (by simp [hb]))

theorem stripKnownPrefix_of_ws {x : List Char} (h : pyStrip x = []) :
    stripKnownPrefix x = [] := by
  unfold stripKnownPrefix
  rw [h]
  rfl

theorem split_of_ws {x : List Char} (h : pyStrip x = []) :
    _split_prefix_kind x = (Kind.note, []) := by
  unfold _split_prefix_kind
  simp [h]

theorem routeQuestionPy_ws {title : List Char} {st : PyState} {q : PyVal}
    (h : pyStrip (pyStr q) = []) : routeQuestionPy title st q = st := by
  unfold routeQuestionPy
  simp [stripKnownPrefix_of_ws h]

theorem routeNotePy_ws {title : List Char} {st : PyState} {v : PyVal}
    (h : pyStrip (pyStr v) = []) : routeNotePy title st v = st := by
  unfold routeNotePy
  rw [split_of_ws h]
  simp

theorem routeTaskPy_emptyish {title : List Char} {st : PyState} {v : PyVal}
    (h : emptyishTask v = true) : routeTaskPy title st v = Except.ok st := by
  cases v with
  | dict kvs =>
    cases htv : dictGet kvs (toL "text") with
    | str s =>
      have hps : pyStrip s = [] := by
        have h2 : (pyStrip s).isEmpty = true := by simpa [emptyishTask, htv] using h
        simpa [List.isEmpty_iff] using h2
      simp only [routeTaskPy, pyGet, pureBind, okBind, htv]
      split
      · simp [pyStripM, hps, okBind, pureEqOk]
      · simp [pyStripM, okBind, pyStrip_nil, pureEqOk]
    | none =>
      simp [routeTaskPy, pyGet, okBind, pureBind, htv, truthy, pyStripM, pyStrip_nil, pureEqOk]
    | bool b =>
      have hb : truthy (PyVal.bool b) = false := by simpa [emptyishTask, htv] using h
      simp [routeTaskPy, pyGet, okBind, pureBind, htv, hb, pyStripM, pyStrip_nil, pureEqOk]
    | int n =>
      have hb : truthy (PyVal.int n) = false := by simpa [emptyishTask, htv] using h
      simp [routeTaskPy, pyGet, okBind, pureBind, htv, hb, pyStripM, pyStrip_nil, pureEqOk]
    | list xs =>
      have hb : truthy (PyVal.list xs) = false := by simpa [emptyishTask, htv] using h
      simp [routeTaskPy, pyGet, okBind, pureBind, htv, hb, pyStripM, pyStrip_nil, pureEqOk]
    | dict kvs2 =>
      have hb : truthy (PyVal.dict kvs2) = false := by simpa [emptyishTask, htv] using h
      simp [routeTaskPy, pyGet, okBind, pureBind, htv, hb, pyStripM, pyStrip_nil, pureEqOk]
  | none => simp [emptyishTask] at h
  | bool b => simp [emptyishTask] at h
  | int n => simp [emptyishTask] at h
  | str s => simp [emptyishTask] at h
  | list xs => simp [emptyishTask] at h

theorem pyStripM_or_ok {v : PyVal} (d : List Char) (h : strOrFalsy v = true) :
    ∃ s, pyStripM (if truthy v = true then v else PyVal.str d) = Except.ok s := by
  cases v with
  | str s =>
    by_cases ht : truthy (PyVal.str s) = true
    · exact ⟨pyStrip s, by simp [ht, pyStripM, pureEqOk]⟩
    · exact ⟨pyStrip d, by simp [ht, pyStripM, pureEqOk]⟩
  | none => exact ⟨pyStrip d, by simp [truthy, pyStripM, pureEqOk]⟩
  | bool b =>
    have hb : truthy (PyVal.bool b) = false := by simpa [strOrFalsy] using h
    exact ⟨pyStrip d, by simp [hb, pyStripM, pureEqOk]⟩
  | int n =>
    have hb : truthy (PyVal.int n) = false := by simpa [strOrFalsy] using h
    exact ⟨pyStrip d, by simp [hb, pyStripM, pureEqOk]⟩
  | list xs =>
    have hb : truthy (PyVal.list xs) = false := by simpa [strOrFalsy] using h
    exact ⟨pyStrip d, by simp [hb, pyStripM, pureEqOk]⟩
  | dict kvs =>
    have hb : truthy (PyVal.dict kvs) = false := by simpa [strOrFalsy] using h
    exact ⟨pyStrip d, by simp [hb, pyStripM, pureEqOk]⟩

theorem pyIter_or_ok {p : PyVal → Bool} {v : PyVal} (d : List PyVal)
    (h : listOrFalsy p v = true) (hd : ∀ x ∈ d, p x = true) :
    ∃ xs, pyIter (if truthy v = true then v else PyVal.list d) = Except.ok xs
      ∧ ∀ x ∈ xs, p x = true := by
  cases v with
  | list xs =>
    by_cases ht : truthy (PyVal.list xs) = true
    · refine ⟨xs, by simp [ht, pyIter, pureEqOk], ?_⟩
      intro x hx
      exact List.all_eq_true.mp (by simpa [listOrFalsy] using h) x hx
    · exact ⟨d, by simp [ht, pyIter, pureEqOk], hd⟩
  | none => exact ⟨d, by simp [truthy, pyIter, pureEqOk], hd⟩
  | bool b =>
    have hb : truthy (PyVal.bool b) = false := by simpa [listOrFalsy] using h
    exact ⟨d, by simp [hb, pyIter, pureEqOk], hd⟩
  | int n =>
    have hb : truthy (PyVal.int n) = false := by simpa [listOrFalsy] using h
    exact ⟨d, by simp [hb, pyIter, pureEqOk], hd⟩
  | str s =>
    have hb : truthy (PyVal.str s) = false := by simpa [listOrFalsy] using h
    exact ⟨d, by simp [hb, pyIter, pureEqOk], hd⟩
  | dict kvs =>
    have hb : truthy (PyVal.dict kvs) = false := by simpa [listOrFalsy] using h
    exact ⟨d, by simp [hb, pyIter, pureEqOk], hd⟩

theorem routeTopicPy_emptyish {st : PyState} {t : PyVal} (h : emptyishTopic t = true) :
    routeTopicPy st t = Except.ok st := by
  cases t with
  | dict kvs =>
    have hand : strOrFalsy (dictGet kvs (toL "title")) = true
        ∧ listOrFalsy emptyishTask (dictGet kvs (toL "tasks")) = true
        ∧ listOrFalsy (fun v => (pyStrip (pyStr v)).isEmpty) (dictGet kvs (toL "notes")) = true
        ∧ listOrFalsy (fun v => (pyStrip (pyStr v)).isEmpty) (dictGet kvs (toL "questions")) = true := by
      simpa [emptyishTopic, Bool.and_eq_true, and_assoc] using h
    obtain ⟨h1, h2, h3, h4⟩ := hand
    obtain ⟨s1, hs1⟩ := pyStripM_or_ok (toL "General") h1
    obtain ⟨xs2, hxs2, hall2⟩ := pyIter_or_ok (p := emptyishTask) [] h2 (by simp)
    obtain ⟨xs3, hxs3, hall3⟩ :=
      pyIter_or_ok (p := fun v => (pyStrip (pyStr v)).isEmpty) [] h3 (by simp)
    obtain ⟨xs4, hxs4, hall4⟩ :=
      pyIter_or_ok (p := fun v => (pyStrip (pyStr v)).isEmpty) [] h4 (by simp)
    simp only [routeTopicPy, pyGet, pureBind, hs1, okBind, hxs2]
    rw [foldlM_ok_id (fun a ha => routeTaskPy_emptyish (hall2 a ha))]
    simp only [okBind, hxs4]
    rw [foldl_fixed (fun s' a ha => routeQuestionPy_ws
      (by simpa [List.isEmpty_iff] using hall4 a ha))]
    simp only [okBind, hxs3]
    rw [foldl_fixed (fun s' a ha => routeNotePy_ws
      (by simpa [List.isEmpty_iff] using hall3 a ha))]
    rfl
  | none => simp [emptyishTopic] at h
  | bool b => simp [emptyishTopic] at h
  | int n => simp [emptyishTopic] at h
  | str s => simp [emptyishTopic] at h
  | list xs => simp [emptyishTopic] at h

end NotionFormat

namespace NotionFormat

/-- C5: a parsed input with no content — `topics` absent, null or empty, or
topics whose tasks, notes and questions are all absent, null, empty lists,
or whitespace-only — produces exactly one heading, one source block
(image or paragraph per the attachment handle) and one divider, and
nothing else. -/
theorem C5_empty_input (parsed : PyVal) (f now : List Char) (img : Option (List Char))
    (h : emptyishParsed parsed = true) :
    buildPy parsed f img now
      = Except.ok [Block.heading_2 now (emdashTitle fallbackTitle), sourceBlock f img,
          Block.divider] := by
  cases parsed with
  | dict kvs =>
    have h1 : listOrFalsy emptyishTopic (dictGet kvs (toL "topics")) = true := by
      simpa [emptyishParsed] using h
    obtain ⟨xs, hxs, hall⟩ := pyIter_or_ok (p := emptyishTopic) [defaultTopicPy] h1
      (by
        intro x hx
        simp only [List.mem_singleton] at hx
        subst hx
        decide)
    simp only [buildPy, pyGet, pureBind, hxs, okBind]
    rw [foldlM_ok_id (fun a ha => routeTopicPy_emptyish (hall a ha))]
    rfl
  | none => simp [emptyishParsed] at h
  | bool b => simp [emptyishParsed] at h
  | int n => simp [emptyishParsed] at h
  | str s => simp [emptyishParsed] at h
  | list xs => simp [emptyishParsed] at h

/-- C5 witness: null task list, a whitespace-only note and an empty
question list give the three-block output, with and without an
attachment handle. -/
theorem C5_empty_input_witness :
    buildPy (.dict [(toL "topics", .list [.dict [(toL "title", .str []),
        (toL "tasks", .none), (toL "notes", .list [.str (toL "   ")]),
        (toL "questions", .list [])]])]) (toL "w.png") Option.none (toL "NOW")
      = Except.ok [Block.heading_2 (toL "NOW") (toL " — Handwritten notes"),
          Block.paragraph (toL "Source: w.png"), Block.divider]
    ∧ buildPy (.dict []) (toL "w.png") (some (toL "U")) (toL "NOW")
      = Except.ok [Block.heading_2 (toL "NOW") (toL " — Handwritten notes"),
          Block.image (toL "Source image: w.png") (toL "U"), Block.divider] := by
  constructor
  · have h := C5_empty_input (.dict [(toL "topics", .list [.dict [(toL "title", .str []),
      (toL "tasks", .none), (toL "notes", .list [.str (toL "   ")]),
      (toL "questions", .list [])]])]) (toL "w.png") (toL "NOW") Option.none (by decide)
    exact h.trans (by rfl)
  · have h := C5_empty_input (.dict []) (toL "w.png") (toL "NOW") (some (toL "U")) (by decide)
    exact h.trans (by rfl)

end NotionFormat

namespace NotionFormat

theorem foldlM_ok_inv {σ α : Type} {P : σ → Prop} {f : σ → α → PyM σ} {l : List α} {s : σ}
    (hstep : ∀ s a, a ∈ l → P s → ∃ s', f s a = Except.ok s' ∧ P s') (h : P s) :
    ∃ s', l.foldlM f s = Except.ok s' ∧ P s' := by
  induction l generalizing s with
  | nil => exact ⟨s, rfl, h⟩
  | cons a t ih =>
    obtain ⟨s1, hs1, hP1⟩ := hstep s a (by simp) h
    obtain ⟨s2, hs2, hP2⟩ := ih (fun s' b hb hP => hstep s' b (by simp [hb]) hP) hP1
    exact ⟨s2, by rw [List.foldlM_cons, hs1, okBind, hs2], hP2⟩

theorem foldlM_ok_exists {σ α : Type} {f : σ → α → PyM σ} {l : List α} (s : σ)
    (hstep : ∀ s a, a ∈ l → ∃ s', f s a = Except.ok s') :
    ∃ s', l.foldlM f s = Except.ok s' := by
  induction l generalizing s with
  | nil => exact ⟨s, rfl⟩
  | cons a t ih =>
    obtain ⟨s1, hs1⟩ := hstep s a (by simp)
    obtain ⟨s2, hs2⟩ := ih s1 (fun s' b hb => hstep s' b (by simp [hb]))
    exact ⟨s2, by rw [List.foldlM_cons, hs1, okBind, hs2]⟩

theorem bucketUpdPy_good {f : PyBucket → PyBucket} {title : List Char} {bs : List PyBucket}
    {w : PyVal} (hf : ∀ b, ∀ v ∈ (f b).tasks, v ∈ b.tasks ∨ v = w)
    (hbs : GoodBuckets bs) (hw : wfTask w = true) :
    GoodBuckets (bucketUpdPy f title bs) := by
  induction bs with
  | nil =>
    intro b hb v hv
    simp only [bucketUpdPy, List.mem_singleton] at hb
    subst hb
    rcases hf _ v hv with h | h
    · simp at h
    · subst h; exact hw
  | cons b0 rest ih =>
    intro b hb v hv
    simp only [bucketUpdPy] at hb
    by_cases he : b0.title = title
    · rw [if_pos he] at hb
      rcases List.mem_cons.mp hb with rfl | hb2
      · rcases hf _ v hv with h | h
        · exact hbs b0 (by simp) v h
        · subst h; exact hw
      · exact hbs b (by simp [hb2]) v hv
    · rw [if_neg he] at hb
      rcases List.mem_cons.mp hb with rfl | hb2
      · exact hbs b (by simp) v hv
      · exact ih (fun b1 hb1 => hbs b1 (by simp [hb1])) b hb2 v hv

theorem add_good {st : PyState} {title : List Char} {f : PyBucket → PyBucket} {w : PyVal}
    (hf : ∀ b, ∀ v ∈ (f b).tasks, v ∈ b.tasks ∨ v = w)
    (hst : GoodState st) (hw : wfTask w = true) : GoodState (st.add title f) := by
  obtain ⟨hc, hcur, hp⟩ := hst
  unfold PyState.add
  cases hcu : st.current with
  | none =>
    exact ⟨hc, by simp, bucketUpdPy_good hf hp hw⟩
  | some e =>
    refine ⟨hc, ?_, hp⟩
    intro e2 he2
    simp only [Option.some.injEq] at he2
    subst he2
    exact bucketUpdPy_good hf (hcur e hcu) hw

theorem startEntry_good {st : PyState} {title : List Char}
    (hst : GoodState st) : GoodState (st.startEntry title) := by
  obtain ⟨hc, hcur, hp⟩ := hst
  unfold PyState.startEntry
  cases hcu : st.current with
  | none =>
    refine ⟨hc, ?_, by intro b hb; simp at hb⟩
    intro e2 he2
    simp only [Option.some.injEq] at he2
    subst he2
    exact hp
  | some e =>
    refine ⟨?_, ?_, hp⟩
    · intro e2 he2
      rcases List.mem_append.mp he2 with h | h
      · exact hc e2 h
      · simp only [List.mem_singleton] at h
        subst h
        exact hcur _ hcu
    · intro e2 he2
      simp only [Option.some.injEq] at he2
      subst he2
      intro b hb
      simp at hb

theorem routeTaskPy_good {title : List Char} {st : PyState} {v : PyVal}
    (hv : wfTask v = true) (hst : GoodState st) :
    ∃ st', routeTaskPy title st v = Except.ok st' ∧ GoodState st' := by
  cases v with
  | dict kvs =>
    have h1 : strOrFalsy (dictGet kvs (toL "text")) = true := by simpa [wfTask] using hv
    obtain ⟨s1, hs1⟩ := pyStripM_or_ok [] h1
    simp only [routeTaskPy, pyGet, pureBind, hs1, okBind]
    by_cases hse : s1 = []
    · exact ⟨st, by simp [hse, pureEqOk], hst⟩
    · refine ⟨st.add title (fun b => { b with tasks := b.tasks ++ [PyVal.dict kvs] }),
        by simp [hse, pureEqOk], ?_⟩
      exact add_good (w := PyVal.dict kvs)
        (fun b v2 hv2 => by
          simp only [List.mem_append, List.mem_singleton] at hv2
          exact hv2) hst hv
  | none => simp [wfTask] at hv
  | bool b => simp [wfTask] at hv
  | int n => simp [wfTask] at hv
  | str s => simp [wfTask] at hv
  | list xs => simp [wfTask] at hv

theorem bucketUpdPy_good_eq {f : PyBucket → PyBucket} {title : List Char}
    {bs : List PyBucket} (hf : ∀ b, (f b).tasks = b.tasks)
    (hbs : GoodBuckets bs) : GoodBuckets (bucketUpdPy f title bs) := by
  induction bs with
  | nil =>
    intro b hb v hv
    simp only [bucketUpdPy, List.mem_singleton] at hb
    subst hb
    rw [hf] at hv
    simp at hv
  | cons b0 rest ih =>
    intro b hb v hv
    simp only [bucketUpdPy] at hb
    by_cases he : b0.title = title
    · rw [if_pos he] at hb
      rcases List.mem_cons.mp hb with rfl | hb2
      · rw [hf] at hv
        exact hbs b0 (by simp) v hv
      · exact hbs b (by simp [hb2]) v hv
    · rw [if_neg he] at hb
      rcases List.mem_cons.mp hb with rfl | hb2
      · exact hbs b (by simp) v hv
      · exact ih (fun b1 hb1 => hbs b1 (by simp [hb1])) b hb2 v hv

theorem add_good_eq {st : PyState} {title : List Char} {f : PyBucket → PyBucket}
    (hf : ∀ b, (f b).tasks = b.tasks) (hst : GoodState st) :
    GoodState (st.add title f) := by
  obtain ⟨hc, hcur, hp⟩ := hst
  unfold PyState.add
  cases hcu : st.current with
  | none => exact ⟨hc, by simp, bucketUpdPy_good_eq hf hp⟩
  | some e =>
    refine ⟨hc, ?_, hp⟩
    intro e2 he2
    simp only [Option.some.injEq] at he2
    subst he2
    exact bucketUpdPy_good_eq hf (hcur e hcu)

theorem routeQuestionPy_good {title : List Char} {st : PyState} {q : PyVal}
    (hst : GoodState st) : GoodState (routeQuestionPy title st q) := by
  unfold routeQuestionPy
  by_cases hc : stripKnownPrefix (pyStr q) = []
  · simpa [hc] using hst
  · simp only [hc, ite_false]
    exact add_good_eq (fun b => rfl) hst

theorem wfTask_built (x : List Char) (b : Bool) :
    wfTask (PyVal.dict [(toL "text", PyVal.str x), (toL "done", PyVal.bool b)]) = true := by
  simp [wfTask, dictGet, strOrFalsy]

theorem routeNotePy_good {title : List Char} {st : PyState} {v : PyVal}
    (hst : GoodState st) : GoodState (routeNotePy title st v) := by
  unfold routeNotePy
  by_cases hk : (_split_prefix_kind (pyStr v)).1 = Kind.hash
  · simp only [hk, if_true, ite_true]
    exact startEntry_good hst
  · simp only [hk, ite_false]
    by_cases ht : (_split_prefix_kind (pyStr v)).2 = []
    · simp only [ht, ite_true]
      exact hst
    · simp only [ht, ite_false]
      cases hkk : (_split_prefix_kind (pyStr v)).1 with
      | hash => exact absurd hkk hk
      | task_open =>
        simp only
        exact add_good (w := PyVal.dict [(toL "text", PyVal.str (_split_prefix_kind (pyStr v)).2),
            (toL "done", PyVal.bool false)])
          (fun b v2 hv2 => by
            simp only [List.mem_append, List.mem_singleton] at hv2
            exact hv2) hst (wfTask_built _ _)
      | task_done =>
        simp only
        exact add_good (w := PyVal.dict [(toL "text", PyVal.str (_split_prefix_kind (pyStr v)).2),
            (toL "done", PyVal.bool true)])
          (fun b v2 hv2 => by
            simp only [List.mem_append, List.mem_singleton] at hv2
            exact hv2) hst (wfTask_built _ _)
      | question =>
        simp only
        exact add_good_eq (fun b => rfl) hst
      | note =>
        simp only
        exact add_good_eq (fun b => rfl) hst

theorem routeTopicPy_good {st : PyState} {t : PyVal} (ht : wfTopic t = true)
    (hst : GoodState st) :
    ∃ st', routeTopicPy st t = Except.ok st' ∧ GoodState st' := by
  cases t with
  | dict kvs =>
    have hand : strOrFalsy (dictGet kvs (toL "title")) = true
        ∧ listOrFalsy wfTask (dictGet kvs (toL "tasks")) = true
        ∧ listOrFalsy (fun _ => true) (dictGet kvs (toL "notes")) = true
        ∧ listOrFalsy (fun _ => true) (dictGet kvs (toL "questions")) = true := by
      simpa [wfTopic, Bool.and_eq_true, and_assoc] using ht
    obtain ⟨h1, h2, h3, h4⟩ := hand
    obtain ⟨s1, hs1⟩ := pyStripM_or_ok (toL "General") h1
    obtain ⟨xs2, hxs2, hall2⟩ := pyIter_or_ok (p := wfTask) [] h2 (by simp)
    obtain ⟨xs3, hxs3, -⟩ := pyIter_or_ok (p := fun _ => true) [] h3 (by simp)
    obtain ⟨xs4, hxs4, -⟩ := pyIter_or_ok (p := fun _ => true) [] h4 (by simp)
    obtain ⟨st1, hst1, hg1⟩ := foldlM_ok_inv (P := GoodState) (l := xs2)
      (f := routeTaskPy (if s1 = [] then toL "General" else s1))
      (fun s a ha hP => routeTaskPy_good (hall2 a ha) hP) hst
    simp only [routeTopicPy, pyGet, pureBind, hs1, okBind, hxs2, hst1, hxs4, hxs3]
    refine ⟨_, rfl, ?_⟩
    apply foldl_preserve (P := GoodState)
      (fun s a _ hP => routeNotePy_good hP)
    apply foldl_preserve (P := GoodState)
      (fun s a _ hP => routeQuestionPy_good hP)
    exact hg1
  | none => simp [wfTopic] at ht
  | bool b => simp [wfTopic] at ht
  | int n => simp [wfTopic] at ht
  | str s => simp [wfTopic] at ht
  | list xs => simp [wfTopic] at ht


theorem renderTaskPy_ok {t : PyVal} (h : wfTask t = true) :
    ∃ ob, renderTaskPy t = Except.ok ob := by
  cases t with
  | dict kvs =>
    simp only [wfTask] at h
    obtain ⟨s, hs⟩ := pyStripM_or_ok (v := dictGet kvs (toL "text")) [] h
    by_cases hse : s = []
    · refine ⟨Option.none, ?_⟩
      simp only [renderTaskPy, pyGet, pureBind, hs, okBind, hse, ite_true]
      rfl
    · refine ⟨some (.to_do s (truthy (dictGetD kvs (toL "done") (.bool false)))), ?_⟩
      simp only [renderTaskPy, pyGet, pureBind, hs, okBind, hse, ite_false, pyGetD]
      rfl
  | none => simp [wfTask] at h
  | bool b => simp [wfTask] at h
  | int n => simp [wfTask] at h
  | str s => simp [wfTask] at h
  | list xs => simp [wfTask] at h

theorem renderBucketPy_ok {b : PyBucket} (h : ∀ v ∈ b.tasks, wfTask v = true) :
    ∃ bs, renderBucketPy b = Except.ok bs := by
  obtain ⟨tb, htb⟩ := foldlM_ok_exists
    (f := fun (acc : List Block) task => do
      let ob ← renderTaskPy task
      pure (acc ++ ob.toList)) (l := b.tasks) []
    (fun acc task hmem => by
      obtain ⟨ob, hob⟩ := renderTaskPy_ok (h task hmem)
      exact ⟨acc ++ ob.toList, by simp only [hob, okBind]; rfl⟩)
  refine ⟨Block.heading_3 b.title :: (tb ++ b.notes.filterMap renderNote
      ++ b.questions.filterMap renderQuestion), ?_⟩
  unfold renderBucketPy
  rw [htb, okBind]
  rfl

theorem renderEntryPy_ok {e : PyEntry} (hg : GoodBuckets e.topics)
    (f now : List Char) (img : Option (List Char)) (isFirst : Bool) :
    ∃ bs, renderEntryPy f img now isFirst e = Except.ok bs := by
  obtain ⟨tb, htb⟩ := foldlM_ok_exists
    (f := fun (acc : List Block) b => do
      let bs ← renderBucketPy b
      pure (acc ++ bs)) (l := e.topics) []
    (fun acc b hb => by
      obtain ⟨bs, hbs⟩ := renderBucketPy_ok (fun v hv => hg b hb v hv)
      exact ⟨acc ++ bs, by simp only [hbs, okBind]; rfl⟩)
  refine ⟨Block.heading_2 now (emdashTitle e.title)
      :: ((if isFirst then [sourceBlock f img] else []) ++ Block.divider :: tb), ?_⟩
  unfold renderEntryPy
  rw [htb, okBind]
  rfl

theorem renderSecsPy_ok {f now : List Char} {img : Option (List Char)} {secs : List PyEntry}
    (hg : ∀ e ∈ secs, GoodBuckets e.topics) :
    ∃ bs, renderSecsPy f img now secs = Except.ok bs := by
  cases secs with
  | nil => exact ⟨[], rfl⟩
  | cons e rest =>
    obtain ⟨b0, hb0⟩ := renderEntryPy_ok (hg e (by simp)) f now img true
    obtain ⟨bsf, hbsf⟩ := foldlM_ok_exists
      (f := fun (acc : List Block) e2 => do
        let bs ← renderEntryPy f img now false e2
        pure (acc ++ bs)) (l := rest) b0
      (fun acc e2 he2 => by
        obtain ⟨bs2, hbs2⟩ := renderEntryPy_ok (hg e2 (by simp [he2])) f now img false
        exact ⟨acc ++ bs2, by simp only [hbs2, okBind]; rfl⟩)
    refine ⟨bsf, ?_⟩
    simp only [renderSecsPy]
    rw [hb0, okBind]
    exact hbsf

theorem good_step1 {s0 : List PyEntry} {pend : List PyBucket}
    (h0 : ∀ e ∈ s0, GoodBuckets e.topics) (hp : GoodBuckets pend) :
    ∀ e ∈ (if s0.isEmpty then [(⟨fallbackTitle, pend⟩ : PyEntry)] else s0),
      GoodBuckets e.topics := by
  intro e he
  by_cases hie : s0.isEmpty
  · rw [if_pos hie] at he
    simp only [List.mem_singleton] at he
    subst he
    exact hp
  · rw [if_neg hie] at he
    exact h0 e he

theorem good_step2 {s1 : List PyEntry} (h1 : ∀ e ∈ s1, GoodBuckets e.topics) :
    ∀ e ∈ (if (s1.filter pyEntryHasContent).isEmpty
           then [(⟨fallbackTitle, ([] : List PyBucket)⟩ : PyEntry)]
           else s1.filter pyEntryHasContent),
      GoodBuckets e.topics := by
  intro e he
  by_cases hie : (s1.filter pyEntryHasContent).isEmpty
  · rw [if_pos hie] at he
    simp only [List.mem_singleton] at he
    subst he
    intro b hb
    simp at hb
  · rw [if_neg hie] at he
    exact h1 e (List.mem_of_mem_filter he)

/-- C1 (corrected): for every parsed value whose `topics` is a list of
processable topic dicts (or falsy), `build_notion_blocks` returns
normally. -/
theorem C1_no_raise (parsed : PyVal) (f now : List Char) (img : Option (List Char))
    (h : wfParsed parsed = true) :
    ∃ bs, buildPy parsed f img now = Except.ok bs := by
  cases parsed with
  | dict kvs =>
    have h1 : listOrFalsy wfTopic (dictGet kvs (toL "topics")) = true := by
      simpa [wfParsed] using h
    obtain ⟨xs, hxs, hall⟩ := pyIter_or_ok (p := wfTopic) [defaultTopicPy] h1
      (by
        intro x hx
        simp only [List.mem_singleton] at hx
        subst hx
        decide)
    have hinit : GoodState ⟨[], Option.none, []⟩ := by
      refine ⟨?_, ?_, ?_⟩
      · intro e he; simp at he
      · intro e he; simp at he
      · intro b hb; simp at hb
    obtain ⟨st, hst1, hg⟩ := foldlM_ok_inv (P := GoodState) (l := xs) (f := routeTopicPy)
      (fun s a ha hP => routeTopicPy_good (hall a ha) hP) hinit
    obtain ⟨hc, hcur, hp⟩ := hg
    have hg0 : ∀ e ∈ st.closed ++ st.current.toList, GoodBuckets e.topics := by
      intro e he
      rcases List.mem_append.mp he with h1 | h2
      · exact hc e h1
      · cases hcu : st.current with
        | none => rw [hcu] at h2; simp at h2
        | some e2 =>
          rw [hcu] at h2
          simp only [Option.toList, List.mem_singleton] at h2
          subst h2
          exact hcur _ hcu
    simp only [buildPy, pyGet, pureBind, hxs, okBind, hst1]
    exact renderSecsPy_ok (good_step2 (good_step1 hg0 hp))
  | none => simp [wfParsed] at h
  | bool b => simp [wfParsed] at h
  | int n => simp [wfParsed] at h
  | str s => simp [wfParsed] at h
  | list xs => simp [wfParsed] at h

/-- C1 counterexample: a topic whose task has integer `text` makes the
formatter raise `AttributeError` on `.strip()` instead of coercing to
string. -/
theorem C1_counterexample :
    buildPy (.dict [(toL "topics", .list [.dict
      [(toL "title", .str (toL "T")),
       (toL "tasks", .list [.dict [(toL "text", .int 5)]]),
       (toL "notes", .list []),
       (toL "questions", .list [])]])]) (toL "f.png") Option.none (toL "NOW")
      = Except.error "AttributeError: no attribute strip" := by rfl

/-- C1 witness: a well-formed parsed dict builds without error. -/
theorem C1_no_raise_witness :
    wfParsed (PyVal.dict [(toL "topics", PyVal.list [defaultTopicPy])]) = true
      ∧ ∃ bs, buildPy (PyVal.dict [(toL "topics", PyVal.list [defaultTopicPy])])
          (toL "f.png") Option.none (toL "NOW") = Except.ok bs :=
  ⟨by decide, C1_no_raise _ _ _ _ (by decide)⟩

end NotionFormat
